import Mathlib

/-!
Verification of the dembrandt color core (src/lib/colors.js, src/lib/display.js).

Modelling conventions for the shallow embedding:
* JS strings are `List Char` (`JSStr`); JS string primitives (`toLowerCase`,
  `padStart`, `slice`, `startsWith`) are defined below on that type.
* JS numbers flowing through the parser are exact: integer channel values are
  `Option ℤ` where `none` models `NaN` (`parseInt` can fail), and fractional
  alpha values are `JsAlpha` (undefined / NaN / an exact rational).  JavaScript
  doubles round to 53-bit precision; that rounding is not modelled, which is
  only observable for inputs with astronomically many digits.
* The colorimetric pipeline (`rgbToLch`, `rgbToOklch`) is embedded over `ℝ`
  with `Math.pow`/`Math.cbrt`/`Math.atan2`/`Math.sqrt` as their exact real
  counterparts (`Real.rpow`, real cube root, `Complex.arg`, `Real.sqrt`).
* The regex `/rgba?\((\d+),\s*(\d+),\s*(\d+)(?:,\s*([\d.]+))?\)/` is compiled
  by hand into `matchRgbaAt` (match attempt at one position, including the
  backtracking behaviour of `a?` and of the optional alpha group) and
  `findRgba` (leftmost match, as `String.prototype.match` performs).
-/

namespace Dembrandt

/-- JS strings are modelled as lists of characters. -/
abbrev JSStr := List Char

/-- Coerce a Lean string literal to the JS string model. -/
def str (s : String) : JSStr := s.toList

/-- Character class `\d` of JS regexes: ASCII digits 0-9. -/
def isDigitCh (c : Char) : Bool := 48 ≤ c.toNat && c.toNat ≤ 57

/-- Hex digits accepted by `parseInt(_, 16)`: 0-9, a-f, A-F. -/
def isHexDigitCh (c : Char) : Bool :=
  isDigitCh c || (97 ≤ c.toNat && c.toNat ≤ 102) || (65 ≤ c.toNat && c.toNat ≤ 70)

/-- Character class `[\d.]` of the alpha capture group. -/
def isDigitDotCh (c : Char) : Bool := isDigitCh c || c = '.'

/-- Whitespace for `\s` and the leading trim of `parseInt`.  We model the ASCII
whitespace characters; the exotic Unicode space code points also matched by JS
`\s` never appear in the claims. -/
def isJsWhitespace (c : Char) : Bool :=
  c = ' ' || c = '\t' || c = '\n' || c = '\r' || c = '\x0b' || c = '\x0c'

/-- ASCII lowercasing of one character, as `String.prototype.toLowerCase`
performs on the characters arising here (full Unicode case mapping agrees with
this on ASCII). -/
def jsLowerChar (c : Char) : Char :=
  if h : 65 ≤ c.toNat ∧ c.toNat ≤ 90 then
    Char.ofNatAux (c.toNat + 32) (Or.inl (by omega))
  else c

/-- JS `s.toLowerCase()`. -/
def jsToLower (s : JSStr) : JSStr := s.map jsLowerChar

/-- Numeric value of a hex digit character (unspecified 0 on other input). -/
def hexDigitVal (c : Char) : ℕ :=
  if isDigitCh c then c.toNat - 48
  else if 97 ≤ c.toNat && c.toNat ≤ 102 then c.toNat - 87
  else if 65 ≤ c.toNat && c.toNat ≤ 70 then c.toNat - 55
  else 0

/-- Value of a string of hex digits, most significant first. -/
def digitsVal16 (ds : JSStr) : ℕ := ds.foldl (fun a c => 16 * a + hexDigitVal c) 0

/-- Value of a string of decimal digits, most significant first. -/
def digitsVal10 (ds : JSStr) : ℕ := ds.foldl (fun a c => 10 * a + (c.toNat - 48)) 0

/-- JS `parseInt(s, 16)`: trim leading whitespace, optional sign, optional
`0x`/`0X` prefix, then the longest prefix of hex digits; `none` models the
`NaN` result when no digit is found.  (The double rounding applied by JS to
very long digit strings is not modelled.) -/
def jsParseInt16 (s : JSStr) : Option ℤ :=
  let s1 := s.dropWhile isJsWhitespace
  let neg : Bool := s1.head? = some '-'
  let s2 := if s1.head? = some '-' ∨ s1.head? = some '+' then s1.tail else s1
  let s3 := if s2.take 2 = ['0', 'x'] ∨ s2.take 2 = ['0', 'X'] then s2.drop 2 else s2
  let ds := s3.takeWhile isHexDigitCh
  if ds.isEmpty then none
  else some ((if neg then -1 else 1) * (digitsVal16 ds : ℤ))

/-- JS `parseInt(g)` on the all-digit capture groups of the rgba regex: the
group is a nonempty string of decimal digits, so `parseInt` returns exactly its
decimal value. -/
def jsParseIntDigits (ds : JSStr) : ℕ := digitsVal10 ds

/-- JS `parseFloat` restricted to its use on the alpha capture group, whose
characters are digits and dots: longest prefix matching `\d+(\.\d*)?` or
`\.\d+`; `none` models `NaN` (e.g. on `"."`).  The exponent and `Infinity`
forms of the full `parseFloat` grammar cannot occur in a `[\d.]+` group. -/
def jsParseFloatNumDot (s : JSStr) : Option ℚ :=
  let ip := s.takeWhile isDigitCh
  let rest := s.dropWhile isDigitCh
  match ip, rest with
  | [], '.' :: t =>
      let fp := t.takeWhile isDigitCh
      if fp.isEmpty then none
      else some ((digitsVal10 fp : ℚ) / 10 ^ fp.length)
  | [], _ => none
  | _, '.' :: t =>
      let fp := t.takeWhile isDigitCh
      some ((digitsVal10 ip : ℚ) + (digitsVal10 fp : ℚ) / 10 ^ fp.length)
  | _, _ => some (digitsVal10 ip : ℚ)

/-- Digit characters of `Number.prototype.toString`, lowercase. -/
def hexDigitChar (d : ℕ) : Char :=
  match d with
  | 0 => '0' | 1 => '1' | 2 => '2' | 3 => '3' | 4 => '4'
  | 5 => '5' | 6 => '6' | 7 => '7' | 8 => '8' | 9 => '9'
  | 10 => 'a' | 11 => 'b' | 12 => 'c' | 13 => 'd' | 14 => 'e'
  | 15 => 'f' | _ => '?'

/-- Hex digits of `n`, most significant first, by fuelled division (the fuel
`n` always suffices since a number has at most `n` hex digits). -/
def natHexAux : ℕ → ℕ → JSStr
  | 0, _ => []
  | fuel + 1, n => if n = 0 then [] else natHexAux fuel (n / 16) ++ [hexDigitChar (n % 16)]

/-- JS `n.toString(16)` for a natural number. -/
def natToString16 (n : ℕ) : JSStr := if n = 0 then ['0'] else natHexAux n n

/-- Decimal digits of `n`, most significant first. -/
def natDecAux : ℕ → ℕ → JSStr
  | 0, _ => []
  | fuel + 1, n => if n = 0 then [] else natDecAux fuel (n / 10) ++ [hexDigitChar (n % 10)]

/-- JS `n.toString()` for a natural number. -/
def natToString10 (n : ℕ) : JSStr := if n = 0 then ['0'] else natDecAux n n

/-- JS `x.toString(16)` on a parsed channel: `NaN` renders as `"NaN"`,
negative integers with a leading minus sign. -/
def jsNumToString16 : Option ℤ → JSStr
  | none => str "NaN"
  | some n => if n < 0 then '-' :: natToString16 n.natAbs else natToString16 n.natAbs

/-- JS `x.toString()` on a parsed channel (template literal interpolation). -/
def jsNumToString10 : Option ℤ → JSStr
  | none => str "NaN"
  | some n => if n < 0 then '-' :: natToString10 n.natAbs else natToString10 n.natAbs

/-- JS `s.padStart(2, "0")`. -/
def padStart2 (s : JSStr) : JSStr :=
  if s.length < 2 then List.replicate (2 - s.length) '0' ++ s else s

/-- Smallest exponent `e ≤ 40` with `d ∣ 10 ^ e`, used to render rationals
with a finite decimal expansion. -/
def pow10Exp (d : ℕ) : Option ℕ := (List.range 41).find? (fun e => decide (d ∣ 10 ^ e))

/-- Decimal rendering of a nonnegative rational with finite decimal expansion,
with no trailing zeros, as JS prints such values.  Rationals without a finite
decimal expansion are rendered as `num/den` (JS would print the shortest
decimal of the nearest double; no claim depends on this case). -/
def posQToStr (q : ℚ) : JSStr :=
  match pow10Exp q.den with
  | some e =>
      let m := (q * 10 ^ e).num.toNat
      let s := natToString10 m
      if e = 0 then s
      else if s.length ≤ e then str "0." ++ List.replicate (e - s.length) '0' ++ s
      else s.take (s.length - e) ++ '.' :: s.drop (s.length - e)
  | none => natToString10 q.num.toNat ++ '/' :: natToString10 q.den

/-- JS number-to-string of a rational (template literal interpolation). -/
def qToStr (q : ℚ) : JSStr := if q < 0 then '-' :: posQToStr (-q) else posQToStr q

/-- Alpha value of a parsed color: JS `undefined`, `NaN`, or a number. -/
inductive JsAlpha where
  | undefined : JsAlpha
  | nan : JsAlpha
  | num : ℚ → JsAlpha
deriving DecidableEq

/-- Result of `hexToRgb` / of the rgba regex: three integer channels (each
possibly `NaN`) and the alpha. -/
structure ParsedRgba where
  r : Option ℤ
  g : Option ℤ
  b : Option ℤ
  a : JsAlpha
deriving DecidableEq

/-- Alpha produced by `parseInt(hex.slice(6, 8), 16) / 255` on the 8-digit hex
form: `NaN / 255` is `NaN`. -/
def alphaOfHexPair (v : Option ℤ) : JsAlpha :=
  match v with
  | none => JsAlpha.nan
  | some n => JsAlpha.num ((n : ℚ) / 255)

/-- Embedding of `hexToRgb` (src/lib/colors.js:167-202): `null` unless the
string starts with `#` and the remainder has length 3, 6 or 8; the length
checks are the only validation (`slice`/`parseInt` run on whatever characters
are there, yielding `NaN` channels for non-hex digits). -/
def hexToRgb (hex : JSStr) : Option ParsedRgba :=
  if hex.head? ≠ some '#' then none
  else
    let h := hex.tail
    if h.length = 3 then
      some { r := jsParseInt16 [h.getD 0 ' ', h.getD 0 ' ']
             g := jsParseInt16 [h.getD 1 ' ', h.getD 1 ' ']
             b := jsParseInt16 [h.getD 2 ' ', h.getD 2 ' ']
             a := JsAlpha.undefined }
    else if h.length = 6 then
      some { r := jsParseInt16 ((h.drop 0).take 2)
             g := jsParseInt16 ((h.drop 2).take 2)
             b := jsParseInt16 ((h.drop 4).take 2)
             a := JsAlpha.undefined }
    else if h.length = 8 then
      some { r := jsParseInt16 ((h.drop 0).take 2)
             g := jsParseInt16 ((h.drop 2).take 2)
             b := jsParseInt16 ((h.drop 4).take 2)
             a := alphaOfHexPair (jsParseInt16 ((h.drop 6).take 2)) }
    else none

/-- Capture groups of one successful match of the rgba regex. -/
structure RgbaCaptures where
  g1 : JSStr
  g2 : JSStr
  g3 : JSStr
  g4 : Option JSStr
deriving DecidableEq

/-- The body of the rgba regex after `rgba?\(`: the three `\d+` channels with
their `,\s*` separators, the optional alpha group and the closing `\)`.
Greedy `+`/`*` repetitions are compiled to `takeWhile` (equivalent here
because each repetition's character class excludes the character required
next), and the backtracking of the optional alpha group is compiled into the
explicit fallback cases. -/
def matchRgbaGroups (t1 : JSStr) : Option (RgbaCaptures × JSStr) :=
  let d1 := t1.takeWhile isDigitCh
  let u1 := t1.dropWhile isDigitCh
  if d1.isEmpty then none
  else if u1.head? ≠ some ',' then none
  else
    let t2 := (u1.tail).dropWhile isJsWhitespace
    let d2 := t2.takeWhile isDigitCh
    let u2 := t2.dropWhile isDigitCh
    if d2.isEmpty then none
    else if u2.head? ≠ some ',' then none
    else
      let t3 := (u2.tail).dropWhile isJsWhitespace
      let d3 := t3.takeWhile isDigitCh
      let u3 := t3.dropWhile isDigitCh
      if d3.isEmpty then none
      else if u3.head? = some ',' then
        -- attempt the optional group `(?:,\s*([\d.]+))?`
        let t4 := (u3.tail).dropWhile isJsWhitespace
        let f := t4.takeWhile isDigitDotCh
        let u4 := t4.dropWhile isDigitDotCh
        -- on failure the engine backtracks to the empty optional group and
        -- then requires `\)` where the `,` stands, which fails
        if f.isEmpty then none
        else if u4.head? = some ')' then some (⟨d1, d2, d3, some f⟩, u4.tail)
        else none
      else if u3.head? = some ')' then some (⟨d1, d2, d3, none⟩, u3.tail)
      else none

/-- Attempt to match `/rgba?\((\d+),\s*(\d+),\s*(\d+)(?:,\s*([\d.]+))?\)/` at
the start of `s`, returning the captures and the remaining suffix. -/
def matchRgbaAt (s : JSStr) : Option (RgbaCaptures × JSStr) :=
  if s.take 3 ≠ str "rgb" then none
  else
    let t0 := s.drop 3
    -- regex `a?\(`: consuming `a` succeeds only when `(` follows, otherwise
    -- the engine backtracks and requires `(` directly
    let afterParen : Option JSStr :=
      if t0.take 2 = str "a(" then some (t0.drop 2)
      else if t0.take 1 = str "(" then some (t0.drop 1)
      else none
    match afterParen with
    | none => none
    | some t1 => matchRgbaGroups t1

/-- Leftmost match of the rgba regex in `s`, as `colorString.match(...)`
searches (the regex is unanchored). -/
def findRgba : JSStr → Option RgbaCaptures
  | [] => none
  | s@(_ :: t) =>
    match matchRgbaAt s with
    | some m => some m.1
    | none => findRgba t

/-- Record produced by `convertColor` (src/lib/colors.js:209-242).  The
source record is `{hex, rgb, lch, oklch, hasAlpha}`; its `lch` and `oklch`
fields are `formatLch(rgbToLch(r, g, b), a)` / `formatOklch(rgbToOklch(r, g,
b), a)`, functions of the parsed channels which this embedding keeps in the
`r`, `g`, `b`, `alpha` fields (the colorimetric pipeline and the formatters
are embedded separately below over the reals). -/
structure ColorRecord where
  hex : JSStr
  rgb : JSStr
  r : Option ℤ
  g : Option ℤ
  b : Option ℤ
  alpha : JsAlpha
  hasAlpha : Bool
deriving DecidableEq

/-- Rendering of the parsed alpha inside the `rgba(...)` template literal. -/
def alphaToStr : JsAlpha → JSStr
  | JsAlpha.undefined => str "undefined"
  | JsAlpha.nan => str "NaN"
  | JsAlpha.num q => qToStr q

/-- Assembly of the result record of `convertColor` from the parsed channels:
`hex` from `r.toString(16).padStart(2, "0")` of each channel, lowercased;
`rgb` from the `rgb()`/`rgba()` template chosen by `a !== undefined`;
`hasAlpha` is `a !== undefined && a < 1` (false for `NaN`). -/
def mkColorRecord (r g b : Option ℤ) (a : JsAlpha) : ColorRecord :=
  { hex := jsToLower ('#' :: (padStart2 (jsNumToString16 r) ++
             padStart2 (jsNumToString16 g) ++ padStart2 (jsNumToString16 b)))
    rgb :=
      match a with
      | JsAlpha.undefined =>
          str "rgb(" ++ jsNumToString10 r ++ str ", " ++ jsNumToString10 g ++
            str ", " ++ jsNumToString10 b ++ str ")"
      | _ =>
          str "rgba(" ++ jsNumToString10 r ++ str ", " ++ jsNumToString10 g ++
            str ", " ++ jsNumToString10 b ++ str ", " ++ alphaToStr a ++ str ")"
    r := r
    g := g
    b := b
    alpha := a
    hasAlpha := match a with | JsAlpha.num q => decide (q < 1) | _ => false }

/-- Embedding of `convertColor` (src/lib/colors.js:209-242): first the rgba
regex (searched anywhere in the string), then `hexToRgb`; `none` models the
`null` return. -/
def convertColor (colorString : JSStr) : Option ColorRecord :=
  match findRgba colorString with
  | some m =>
      let a : JsAlpha :=
        match m.g4 with
        | none => JsAlpha.undefined
        | some g4 =>
          match jsParseFloatNumDot g4 with
          | none => JsAlpha.nan
          | some q => JsAlpha.num q
      some (mkColorRecord (some (jsParseIntDigits m.g1)) (some (jsParseIntDigits m.g2))
        (some (jsParseIntDigits m.g3)) a)
  | none =>
      match hexToRgb colorString with
      | none => none
      | some p => some (mkColorRecord p.r p.g p.b p.a)

/-- The accepted hex grammar of the spec: `#` followed by 3, 6 or 8 hex
digits. -/
def IsHexGrammar (s : JSStr) : Prop :=
  ∃ ds : JSStr, s = '#' :: ds ∧ (ds.length = 3 ∨ ds.length = 6 ∨ ds.length = 8) ∧
    ∀ c ∈ ds, isHexDigitCh c = true

instance (s : JSStr) : Decidable (IsHexGrammar s) := by
  unfold IsHexGrammar
  match s with
  | [] => exact Decidable.isFalse (by rintro ⟨ds, h, -⟩; simp at h)
  | c :: t =>
    refine decidable_of_iff (c = '#' ∧ (t.length = 3 ∨ t.length = 6 ∨ t.length = 8) ∧
      ∀ x ∈ t, isHexDigitCh x = true) ?_
    constructor
    · rintro ⟨rfl, h⟩; exact ⟨t, rfl, h⟩
    · rintro ⟨ds, h, hl⟩; cases h; exact ⟨rfl, hl⟩

/-- The accepted `rgb()`/`rgba()` grammar: whole strings of the shape the
rgba regex describes, an `rgb`/`rgba` head, `(`, three nonempty decimal
channels separated by `,` plus optional whitespace, an optional `,`-prefixed
alpha of digits and dots, and a closing `)`. -/
def IsRgbGrammar (s : JSStr) : Prop :=
  ∃ (atag : Bool) (d1 w1 d2 w2 d3 : JSStr) (opt : Option (JSStr × JSStr)),
    d1 ≠ [] ∧ (∀ c ∈ d1, isDigitCh c = true) ∧
    (∀ c ∈ w1, isJsWhitespace c = true) ∧
    d2 ≠ [] ∧ (∀ c ∈ d2, isDigitCh c = true) ∧
    (∀ c ∈ w2, isJsWhitespace c = true) ∧
    d3 ≠ [] ∧ (∀ c ∈ d3, isDigitCh c = true) ∧
    (match opt with
     | some (w3, f) => (∀ c ∈ w3, isJsWhitespace c = true) ∧ f ≠ [] ∧
         ∀ c ∈ f, isDigitDotCh c = true
     | none => True) ∧
    s = str "rgb" ++ (if atag then ['a'] else []) ++ '(' :: d1 ++ ',' :: w1 ++
      d2 ++ ',' :: w2 ++ d3 ++
      (match opt with | some (w3, f) => ',' :: w3 ++ f | none => []) ++ [')']

/-! The SpaceConverter (src/lib/colors.js:10-125), embedded over `ℝ`:
`Math.pow` on the nonnegative bases arising here is `Real.rpow`, `Math.cbrt`
is the sign-respecting real cube root, `Math.atan2 y x` is `Complex.arg` of
`x + y*I` (range `(-π, π]`, `0` at the origin, as ECMAScript specifies), and
`Math.sqrt` is `Real.sqrt`. -/

/-- JS `Math.cbrt`. -/
noncomputable def jsCbrt (x : ℝ) : ℝ :=
  if x < 0 then -((-x) ^ ((1 : ℝ) / 3)) else x ^ ((1 : ℝ) / 3)

/-- JS `Math.atan2`. -/
noncomputable def jsAtan2 (y x : ℝ) : ℝ := Complex.arg ⟨x, y⟩

/-- Embedding of `srgbToLinear` (src/lib/colors.js:10-13). -/
noncomputable def srgbToLinear (c : ℝ) : ℝ :=
  let c := c / 255
  if c ≤ 0.04045 then c / 12.92 else ((c + 0.055) / 1.055) ^ (2.4 : ℝ)

structure Xyz where
  x : ℝ
  y : ℝ
  z : ℝ

structure Lab where
  l : ℝ
  a : ℝ
  b : ℝ

structure Lch where
  l : ℝ
  c : ℝ
  h : ℝ

structure Oklab where
  L : ℝ
  a : ℝ
  b : ℝ

/-- Embedding of `linearRgbToXyz` (src/lib/colors.js:18-24). -/
noncomputable def linearRgbToXyz (r g b : ℝ) : Xyz :=
  { x := 0.4124564 * r + 0.3575761 * g + 0.1804375 * b
    y := 0.2126729 * r + 0.7151522 * g + 0.0721750 * b
    z := 0.0193339 * r + 0.1191920 * g + 0.9503041 * b }

/-- Piecewise transfer function of `xyzToLab`. -/
noncomputable def labF (t : ℝ) : ℝ :=
  if t > 0.008856 then jsCbrt t else (903.3 * t + 16) / 116

/-- Embedding of `xyzToLab` (src/lib/colors.js:29-46). -/
noncomputable def xyzToLab (x y z : ℝ) : Lab :=
  let xn : ℝ := 0.95047
  let yn : ℝ := 1.00000
  let zn : ℝ := 1.08883
  let fx := labF (x / xn)
  let fy := labF (y / yn)
  let fz := labF (z / zn)
  { l := 116 * fy - 16
    a := 500 * (fx - fy)
    b := 200 * (fy - fz) }

/-- Embedding of `labToLch` (src/lib/colors.js:51-61). -/
noncomputable def labToLch (l a b : ℝ) : Lch :=
  let c := Real.sqrt (a * a + b * b)
  let h := jsAtan2 b a * (180 / Real.pi)
  { l := l, c := c, h := if h < 0 then h + 360 else h }

/-- Embedding of `rgbToLch` (src/lib/colors.js:70-78). -/
noncomputable def rgbToLch (r g b : ℝ) : Lch :=
  let lr := srgbToLinear r
  let lg := srgbToLinear g
  let lb := srgbToLinear b
  let xyz := linearRgbToXyz lr lg lb
  let lab := xyzToLab xyz.x xyz.y xyz.z
  labToLch lab.l lab.a lab.b

/-- Embedding of `linearRgbToOklab` (src/lib/colors.js:84-94). -/
noncomputable def linearRgbToOklab (r g b : ℝ) : Oklab :=
  let l := jsCbrt (0.4122214708 * r + 0.5363325363 * g + 0.0514459929 * b)
  let m := jsCbrt (0.2119034982 * r + 0.6806995451 * g + 0.1073969566 * b)
  let s := jsCbrt (0.0883024619 * r + 0.2817188376 * g + 0.6299787005 * b)
  { L := 0.2104542553 * l + 0.7936177850 * m - 0.0040720468 * s
    a := 1.9779984951 * l - 2.4285922050 * m + 0.4505937099 * s
    b := 0.0259040371 * l + 0.7827717662 * m - 0.8086757660 * s }

/-- Embedding of `oklabToOklch` (src/lib/colors.js:99-109). -/
noncomputable def oklabToOklch (L a b : ℝ) : Lch :=
  let c := Real.sqrt (a * a + b * b)
  let h := jsAtan2 b a * (180 / Real.pi)
  { l := L, c := c, h := if h < 0 then h + 360 else h }

/-- Embedding of `rgbToOklch` (src/lib/colors.js:118-125). -/
noncomputable def rgbToOklch (r g b : ℝ) : Lch :=
  let lr := srgbToLinear r
  let lg := srgbToLinear g
  let lb := srgbToLinear b
  let oklab := linearRgbToOklab lr lg lb
  oklabToOklch oklab.L oklab.a oklab.b

/-! The Formatter (src/lib/colors.js:133-160) is embedded over `ℚ`: every
JS double is rational, `Math.round` is `⌊x + 1/2⌋` (ECMAScript defines it
mathematically: nearest integer, ties towards positive infinity), and the
rounded coordinates always have a finite decimal expansion, where `qToStr`
agrees with JS number printing. -/

/-- JS `Math.round` on rationals. -/
def jsRound (x : ℚ) : ℤ := ⌊x + 1 / 2⌋

structure OklchQ where
  l : ℚ
  c : ℚ
  h : ℚ

/-- Embedding of `formatOklch` (src/lib/colors.js:150-160): the `alpha !==
undefined && alpha < 1` guard selects the `/ alpha` template. -/
def formatOklch (oklch : OklchQ) (alpha : Option ℚ) : JSStr :=
  let l : ℚ := (jsRound (oklch.l * 10000) : ℚ) / 100
  let c : ℚ := (jsRound (oklch.c * 1000) : ℚ) / 1000
  let h : ℚ := (jsRound (oklch.h * 100) : ℚ) / 100
  match alpha with
  | some a =>
      if a < 1 then
        str "oklch(" ++ qToStr l ++ str "% " ++ qToStr c ++ str " " ++ qToStr h ++
          str " / " ++ qToStr a ++ str ")"
      else
        str "oklch(" ++ qToStr l ++ str "% " ++ qToStr c ++ str " " ++ qToStr h ++ str ")"
  | none =>
      str "oklch(" ++ qToStr l ++ str "% " ++ qToStr c ++ str " " ++ qToStr h ++ str ")"

/-! The Consolidator: the deduplication pass of `displayColors`
(src/lib/display.js:185-211).  Observations are the elements pushed onto
`allColors`; the accumulation `Map` keyed by lowercase hex is modelled as an
association list in insertion order, which is exactly the iteration order of
a JS `Map` (`set` of a fresh key appends, updates keep the position). -/

/-- One element of `allColors` in `displayColors`: the color record strings,
a label, a provenance type and a confidence string. -/
structure Observation where
  hex : JSStr
  rgb : JSStr
  lch : JSStr
  oklch : JSStr
  hasAlpha : Bool
  label : JSStr
  type : JSStr
  confidence : JSStr
deriving DecidableEq, Inhabited

/-- The `confidenceOrder` lookup table `{high: 3, medium: 2, low: 1}`;
`none` models the `undefined` of any other key. -/
def confidenceOrder (c : JSStr) : Option ℕ :=
  if c = str "high" then some 3
  else if c = str "medium" then some 2
  else if c = str "low" then some 1
  else none

/-- JS `x > y` on possibly-undefined numbers: any comparison with
`undefined` is false. -/
def jsGtOpt : Option ℕ → Option ℕ → Bool
  | some a, some b => decide (b < a)
  | _, _ => false

/-- JS `label.split(", ")`: splitting on the two-character separator. -/
def splitCommaSpace : JSStr → List JSStr
  | [] => [[]]
  | ',' :: ' ' :: rest => [] :: splitCommaSpace rest
  | c :: rest =>
    match splitCommaSpace rest with
    | [] => [[c]]
    | h :: t => (c :: h) :: t

/-- The merge applied to an existing entry on a key collision
(src/lib/display.js:190-208): adopt the incoming label when the existing
one is empty, append it when new (membership in the `", "`-split of the
existing label, exact equality), and upgrade the confidence when the
incoming one ranks strictly higher. -/
def mergeObs (existing incoming : Observation) : Observation :=
  let afterLabel :=
    if incoming.label ≠ [] ∧ existing.label = [] then
      { existing with label := incoming.label }
    else if incoming.label ≠ [] ∧ existing.label ≠ [] then
      if incoming.label ∈ splitCommaSpace existing.label then existing
      else { existing with label := existing.label ++ str ", " ++ incoming.label }
    else existing
  if jsGtOpt (confidenceOrder incoming.confidence) (confidenceOrder afterLabel.confidence) then
    { afterLabel with confidence := incoming.confidence }
  else afterLabel

/-- One iteration of the `allColors.forEach` loop: look up the lowercase hex
key; merge on a hit, insert a copy at the end on a miss. -/
def consolidateStep (m : List (JSStr × Observation)) (color : Observation) :
    List (JSStr × Observation) :=
  let key := jsToLower color.hex
  if (m.find? (fun e => decide (e.1 = key))).isSome then
    m.map (fun e => if e.1 = key then (e.1, mergeObs e.2 color) else e)
  else m ++ [(key, color)]

/-- The whole deduplication pass (src/lib/display.js:186-211):
`uniqueColors = Array.from(colorMap.values())` in insertion order. -/
def consolidateColors (allColors : List Observation) : List Observation :=
  (allColors.foldl consolidateStep []).map Prod.snd

/-! Spec-side definitions, built from the wording of the specification (not
from the source), for the refinement claims, together with helper definitions
used by the proofs. -/

/-- Modelled from the spec (section 4.2, claim C4): the LCH pipeline exactly
as the specification words it, to be compared with the source embedding
`rgbToLch`: per-channel division by 255 with the piecewise sRGB decode, the
fixed D65 matrix, the Lab transfer against the D65 white point, and the polar
transform with the hue in degrees. -/
noncomputable def specRgbToLch (r g b : ℝ) : Lch :=
  let decode : ℝ → ℝ := fun v =>
    let c := v / 255
    if c ≤ 0.04045 then c / 12.92 else ((c + 0.055) / 1.055) ^ (2.4 : ℝ)
  let lr := decode r
  let lg := decode g
  let lb := decode b
  let x := 0.4124564 * lr + 0.3575761 * lg + 0.1804375 * lb
  let y := 0.2126729 * lr + 0.7151522 * lg + 0.0721750 * lb
  let z := 0.0193339 * lr + 0.1191920 * lg + 0.9503041 * lb
  let f : ℝ → ℝ := fun t => if t > 0.008856 then jsCbrt t else (903.3 * t + 16) / 116
  let fx := f (x / 0.95047)
  let fy := f (y / 1.0)
  let fz := f (z / 1.08883)
  let labL := 116 * fy - 16
  let labA := 500 * (fx - fy)
  let labB := 200 * (fy - fz)
  let theta := jsAtan2 labB labA * (180 / Real.pi)
  { l := labL
    c := Real.sqrt (labA ^ 2 + labB ^ 2)
    h := if theta < 0 then theta + 360 else theta }

/-- Modelled from the spec (section 4.3, claim C9): `formatOklch` as the
specification words it: L rendered as the percentage `round(L*10000)/100`, C
rounded to 3 decimals, H to 2, and the `/ alpha` suffix appended exactly when
alpha is defined and strictly below 1. -/
def specFormatOklch (oklch : OklchQ) (alpha : Option ℚ) : JSStr :=
  str "oklch(" ++ qToStr ((jsRound (oklch.l * 10000) : ℚ) / 100) ++ str "% " ++
    qToStr ((jsRound (oklch.c * 1000) : ℚ) / 1000) ++ str " " ++
    qToStr ((jsRound (oklch.h * 100) : ℚ) / 100) ++
    (match alpha with
     | some a => if a < 1 then str " / " ++ qToStr a ++ str ")" else str ")"
     | none => str ")")

/-- Modelled from the spec (section 4.4, claim C6): the merged label of a key
collision as the specification words it: adopt the incoming label when the
existing one is empty; when both are non-empty, append the incoming label to
the comma-separated existing one only when it is not already one of its
comma-separated elements (exact, case-sensitive equality). -/
def specMergedLabel (ex inc : JSStr) : JSStr :=
  if inc ≠ [] ∧ ex = [] then inc
  else if inc ≠ [] ∧ ex ≠ [] then
    if inc ∈ splitCommaSpace ex then ex else ex ++ str ", " ++ inc
  else ex

/-- Lookup in the accumulation map, returning the stored entry. -/
def mapLookup (m : List (JSStr × Observation)) (k : JSStr) : Option Observation :=
  (m.find? (fun e => decide (e.1 = k))).map Prod.snd

/-- Numeric rank of a confidence string (0 for strings outside the table). -/
def rank (c : JSStr) : ℕ := (confidenceOrder c).getD 0

/-- The fields of an entry untouched by collisions (everything except the
label and the confidence). -/
def ObsFrameEq (e o : Observation) : Prop :=
  e.hex = o.hex ∧ e.rgb = o.rgb ∧ e.lch = o.lch ∧ e.oklch = o.oklch ∧
    e.hasAlpha = o.hasAlpha

/-- First-occurrence deduplication of a key sequence, skipping keys already
seen. -/
def dedupFirstAux (seen : List JSStr) : List JSStr → List JSStr
  | [] => []
  | k :: l => if k ∈ seen then dedupFirstAux seen l else k :: dedupFirstAux (k :: seen) l

/-- The subsequence of first occurrences of each distinct key. -/
def firstDedup (l : List JSStr) : List JSStr := dedupFirstAux [] l

/-- Lowercase hex key of an observation. -/
def obsKey (o : Observation) : JSStr := jsToLower o.hex

/-- Sample observation for concrete consolidation witnesses. -/
def sampleObsA : Observation :=
  ⟨str "#AABBCC", str "rgb(170, 187, 204)", str "lchA", str "oklchA", false,
    str "Primary", str "semantic", str "low"⟩

/-- Sample observation sharing `sampleObsA`'s key, with another label. -/
def sampleObsB : Observation :=
  ⟨str "#aabbcc", str "rgb(170, 187, 204)", str "lchB", str "oklchB", false,
    str "Accent", str "palette", str "high"⟩

/-- Sample observation with a fresh key. -/
def sampleObsC : Observation :=
  ⟨str "#000000", str "rgb(0, 0, 0)", str "lchC", str "oklchC", false,
    str "", str "palette", str "medium"⟩

/-! Helper lemmas about the Consolidator. -/

theorem mergeObs_frame (e o : Observation) : ObsFrameEq (mergeObs e o) e := by
  unfold mergeObs ObsFrameEq
  dsimp only
  split_ifs <;> simp_all

theorem mergeObs_label (e o : Observation) :
    (mergeObs e o).label = specMergedLabel e.label o.label := by
  unfold mergeObs specMergedLabel
  dsimp only
  split_ifs <;> simp_all

theorem mergeObs_confidence (e o : Observation) :
    (mergeObs e o).confidence =
      if jsGtOpt (confidenceOrder o.confidence) (confidenceOrder e.confidence) then
        o.confidence
      else e.confidence := by
  unfold mergeObs
  dsimp only
  split_ifs <;> simp_all

theorem rank_le_rank_mergeObs (e o : Observation) :
    rank e.confidence ≤ rank (mergeObs e o).confidence := by
  rw [mergeObs_confidence]
  rcases h1 : confidenceOrder o.confidence with - | a <;>
    rcases h2 : confidenceOrder e.confidence with - | b <;>
      simp_all [jsGtOpt, rank] <;> split_ifs <;> simp_all <;> omega

theorem find?_map_collision (m : List (JSStr × Observation)) (key k : JSStr)
    (f : Observation → Observation) :
    (m.map (fun e => if e.1 = key then (e.1, f e.2) else e)).find?
        (fun e => decide (e.1 = k)) =
      (m.find? (fun e => decide (e.1 = k))).map
        (fun e => if e.1 = key then (e.1, f e.2) else e) := by
  induction m with
  | nil => rfl
  | cons p t ih =>
    by_cases hp : p.1 = k
    · simp [List.find?_cons, hp]
      split_ifs <;> simp_all
    · have h1 : ((if p.1 = key then (p.1, f p.2) else p).1 = k) = False := by
        split_ifs <;> simp_all
      simp [List.find?_cons, hp, h1, ih]

theorem mapLookup_consolidateStep (m : List (JSStr × Observation))
    (o : Observation) (k : JSStr) :
    mapLookup (consolidateStep m o) k =
      if jsToLower o.hex = k then
        match mapLookup m k with
        | some e => some (mergeObs e o)
        | none => some o
      else mapLookup m k := by
  unfold consolidateStep mapLookup
  dsimp only
  split_ifs with hp hk hk
  · -- key present, k is the collision key
    subst hk
    rw [find?_map_collision m (jsToLower o.hex) (jsToLower o.hex) (fun x => mergeObs x o)]
    rcases hf : m.find? (fun e => decide (e.1 = jsToLower o.hex)) with - | p
    · simp [hf] at hp
    · have := List.find?_some hf
      simp at this
      rw [hf]
      simp [Function.comp, this]
  · -- key present, k is another key
    rw [find?_map_collision m (jsToLower o.hex) k (fun x => mergeObs x o)]
    rcases hf : m.find? (fun e => decide (e.1 = k)) with - | p
    · rw [hf]; rfl
    · have := List.find?_some hf
      simp at this
      have hne : (p.1 = jsToLower o.hex) = False := by
        simp [this]; exact fun h => hk h.symm
      rw [hf]
      simp [Function.comp, hne]
  · -- key absent, k is the collision key
    subst hk
    rw [List.find?_append]
    rcases hf : m.find? (fun e => decide (e.1 = jsToLower o.hex)) with - | p
    · rw [hf]; simp [List.find?_cons]
    · simp [hf] at hp
  · -- key absent, k is another key
    rw [List.find?_append]
    have hd : decide (jsToLower o.hex = k) = false := by simp [hk]
    rcases hf : m.find? (fun e => decide (e.1 = k)) with - | p
    · rw [hf]; simp [List.find?_cons, hd]
    · rw [hf]; simp

theorem isSome_map_snd (x : Option (JSStr × Observation)) :
    (x.map Prod.snd).isSome = x.isSome := by
  cases x <;> rfl

theorem keys_consolidateStep (m : List (JSStr × Observation)) (o : Observation) :
    (consolidateStep m o).map Prod.fst =
      if (mapLookup m (jsToLower o.hex)).isSome then m.map Prod.fst
      else m.map Prod.fst ++ [jsToLower o.hex] := by
  unfold consolidateStep mapLookup
  dsimp only
  rw [isSome_map_snd]
  split_ifs with hp <;> simp_all
  intro a b _
  split_ifs with h
  · subst h; rfl
  · rfl

theorem mapLookup_isSome_iff (m : List (JSStr × Observation)) (k : JSStr) :
    (mapLookup m k).isSome ↔ k ∈ m.map Prod.fst := by
  unfold mapLookup
  rw [isSome_map_snd, List.find?_isSome]
  simp

theorem entriesKeyed_fold (l : List Observation) :
    ∀ m, (∀ p ∈ m, p.1 = jsToLower p.2.hex) →
      ∀ p ∈ l.foldl consolidateStep m, p.1 = jsToLower p.2.hex := by
  induction l with
  | nil => intro m hm; exact hm
  | cons o t ih =>
    intro m hm
    refine ih (consolidateStep m o) ?_
    intro p hp
    unfold consolidateStep at hp
    dsimp only at hp
    split_ifs at hp with hs
    · rcases List.mem_map.mp hp with ⟨q, hq, rfl⟩
      have hframe : (mergeObs q.2 o).hex = q.2.hex := (mergeObs_frame q.2 o).1
      split_ifs with h
      · simp only [hframe]
        exact hm q hq
      · exact hm q hq
    · rcases List.mem_append.mp hp with h | h
      · exact hm p h
      · simp at h
        simp [h]

theorem dedupFirstAux_congr (l : List JSStr) :
    ∀ s1 s2, (∀ x, x ∈ s1 ↔ x ∈ s2) → dedupFirstAux s1 l = dedupFirstAux s2 l := by
  induction l with
  | nil => intro s1 s2 _; rfl
  | cons k t ih =>
    intro s1 s2 h
    unfold dedupFirstAux
    by_cases hk : k ∈ s1
    · simp [hk, (h k).mp hk, ih s1 s2 h]
    · have hk2 : k ∉ s2 := fun hc => hk ((h k).mpr hc)
      simp [hk, hk2]
      exact ih _ _ (fun x => by simp [h x])

theorem dedupFirstAux_cons (seen : List JSStr) (k : JSStr) (l : List JSStr) :
    dedupFirstAux seen (k :: l) =
      if k ∈ seen then dedupFirstAux seen l else k :: dedupFirstAux (k :: seen) l := rfl

theorem keys_fold (l : List Observation) :
    ∀ m, (l.foldl consolidateStep m).map Prod.fst =
      m.map Prod.fst ++
        dedupFirstAux (m.map Prod.fst) (l.map (fun o => jsToLower o.hex)) := by
  induction l with
  | nil => intro m; simp [dedupFirstAux]
  | cons o t ih =>
    intro m
    have hstep := keys_consolidateStep m o
    simp only [List.foldl_cons, List.map_cons]
    rw [ih (consolidateStep m o), hstep]
    by_cases hp : (mapLookup m (jsToLower o.hex)).isSome
    · have hmem : jsToLower o.hex ∈ m.map Prod.fst := (mapLookup_isSome_iff m _).mp hp
      rw [if_pos hp, dedupFirstAux_cons, if_pos hmem]
    · have hmem : jsToLower o.hex ∉ m.map Prod.fst :=
        fun hc => hp ((mapLookup_isSome_iff m _).mpr hc)
      rw [if_neg hp, dedupFirstAux_cons, if_neg hmem]
      rw [List.append_assoc, List.singleton_append]
      congr 1
      congr 1
      exact dedupFirstAux_congr _ _ _ (fun x => by simp [or_comm])

theorem dedupFirstAux_notin_seen (l : List JSStr) :
    ∀ seen x, x ∈ dedupFirstAux seen l → x ∉ seen := by
  induction l with
  | nil => intro seen x h; simp [dedupFirstAux] at h
  | cons k t ih =>
    intro seen x h
    rw [dedupFirstAux_cons] at h
    by_cases hk : k ∈ seen
    · rw [if_pos hk] at h
      exact ih seen x h
    · rw [if_neg hk] at h
      rcases List.mem_cons.mp h with rfl | h2
      · exact hk
      · exact fun hx => ih (k :: seen) x h2 (List.mem_cons_of_mem k hx)

theorem dedupFirstAux_nodup (l : List JSStr) :
    ∀ seen, (dedupFirstAux seen l).Nodup := by
  induction l with
  | nil => intro seen; simp [dedupFirstAux]
  | cons k t ih =>
    intro seen
    rw [dedupFirstAux_cons]
    by_cases hk : k ∈ seen
    · rw [if_pos hk]
      exact ih seen
    · rw [if_neg hk]
      refine List.nodup_cons.mpr ⟨fun hc => ?_, ih (k :: seen)⟩
      exact dedupFirstAux_notin_seen t (k :: seen) k hc (List.mem_cons_self k seen)

theorem dedupFirstAux_mem (l : List JSStr) :
    ∀ seen x, x ∈ dedupFirstAux seen l ↔ x ∈ l ∧ x ∉ seen := by
  induction l with
  | nil => intro seen x; simp [dedupFirstAux]
  | cons k t ih =>
    intro seen x
    rw [dedupFirstAux_cons]
    by_cases hk : k ∈ seen
    · rw [if_pos hk, ih]
      constructor
      · rintro ⟨h1, h2⟩
        exact ⟨List.mem_cons_of_mem k h1, h2⟩
      · rintro ⟨h1, h2⟩
        rcases List.mem_cons.mp h1 with rfl | h1t
        · exact absurd hk h2
        · exact ⟨h1t, h2⟩
    · rw [if_neg hk]
      constructor
      · intro h
        rcases List.mem_cons.mp h with rfl | h2
        · exact ⟨List.mem_cons_self x t, hk⟩
        · obtain ⟨h3, h4⟩ := (ih (k :: seen) x).mp h2
          exact ⟨List.mem_cons_of_mem k h3, fun hx => h4 (List.mem_cons_of_mem k hx)⟩
      · rintro ⟨h1, h2⟩
        by_cases hxk : x = k
        · subst hxk
          exact List.mem_cons_self x _
        · rcases List.mem_cons.mp h1 with rfl | h1t
          · exact absurd rfl hxk
          · refine List.mem_cons_of_mem k ((ih (k :: seen) x).mpr ⟨h1t, fun hc => ?_⟩)
            rcases List.mem_cons.mp hc with rfl | hc2
            · exact hxk rfl
            · exact h2 hc2

theorem rank_fold_mono (l : List Observation) :
    ∀ m k e, mapLookup m k = some e →
      ∃ e2, mapLookup (l.foldl consolidateStep m) k = some e2 ∧
        rank e.confidence ≤ rank e2.confidence := by
  induction l with
  | nil => intro m k e h; exact ⟨e, h, le_refl _⟩
  | cons o t ih =>
    intro m k e h
    have hstep := mapLookup_consolidateStep m o k
    by_cases hko : jsToLower o.hex = k
    · rw [if_pos hko, h] at hstep
      obtain ⟨e2, h2, hr⟩ := ih (consolidateStep m o) k (mergeObs e o) hstep
      exact ⟨e2, h2, le_trans (rank_le_rank_mergeObs e o) hr⟩
    · rw [if_neg hko, h] at hstep
      exact ih (consolidateStep m o) k e hstep

theorem frame_fold (l : List Observation) :
    ∀ m k e, mapLookup (l.foldl consolidateStep m) k = some e →
      (∃ e0, mapLookup m k = some e0 ∧ ObsFrameEq e e0) ∨
      (mapLookup m k = none ∧
        ∃ o, l.find? (fun o => decide (jsToLower o.hex = k)) = some o ∧ ObsFrameEq e o) := by
  induction l with
  | nil =>
    intro m k e h
    exact Or.inl ⟨e, h, rfl, rfl, rfl, rfl, rfl⟩
  | cons o t ih =>
    intro m k e h
    have hstep := mapLookup_consolidateStep m o k
    by_cases hko : jsToLower o.hex = k
    · rw [if_pos hko] at hstep
      rcases hm : mapLookup m k with - | e1
      · rw [hm] at hstep
        rcases ih (consolidateStep m o) k e h with ⟨e0, h0, hfr⟩ | ⟨hnone, -⟩
        · rw [hstep] at h0
          refine Or.inr ⟨rfl, o, ?_, Option.some.inj h0 ▸ hfr⟩
          rw [List.find?_cons, decide_eq_true hko]
        · rw [hstep] at hnone
          exact absurd hnone (by simp)
      · rw [hm] at hstep
        rcases ih (consolidateStep m o) k e h with ⟨e0, h0, hfr⟩ | ⟨hnone, -⟩
        · rw [hstep] at h0
          have he0 : e0 = mergeObs e1 o := Option.some.inj h0.symm
          subst he0
          refine Or.inl ⟨e1, rfl, ?_⟩
          obtain ⟨f1, f2, f3, f4, f5⟩ := hfr
          obtain ⟨g1, g2, g3, g4, g5⟩ := mergeObs_frame e1 o
          exact ⟨f1.trans g1, f2.trans g2, f3.trans g3, f4.trans g4, f5.trans g5⟩
        · rw [hstep] at hnone
          exact absurd hnone (by simp)
    · rw [if_neg hko] at hstep
      rcases ih (consolidateStep m o) k e h with ⟨e0, h0, hfr⟩ | ⟨hnone, o2, hfind, hfr⟩
      · rw [hstep] at h0
        exact Or.inl ⟨e0, h0, hfr⟩
      · rw [hstep] at hnone
        refine Or.inr ⟨hnone, o2, ?_, hfr⟩
        rw [List.find?_cons, decide_eq_false hko]
        exact hfind

theorem keysNodup_fold (l : List Observation) :
    ∀ m, (m.map Prod.fst).Nodup → ((l.foldl consolidateStep m).map Prod.fst).Nodup := by
  induction l with
  | nil => intro m hm; exact hm
  | cons o t ih =>
    intro m hm
    refine ih (consolidateStep m o) ?_
    rw [keys_consolidateStep]
    split_ifs with hp
    · exact hm
    · have hmem : jsToLower o.hex ∉ m.map Prod.fst :=
        fun hc => hp ((mapLookup_isSome_iff m _).mpr hc)
      rw [List.nodup_append]
      exact ⟨hm, List.nodup_singleton _, fun a ha hb => hmem (List.mem_singleton.mp hb ▸ ha)⟩

theorem find?_eq_of_nodup_keys (m : List (JSStr × Observation))
    (hm : (m.map Prod.fst).Nodup) (p : JSStr × Observation) (hp : p ∈ m) :
    m.find? (fun e => decide (e.1 = p.1)) = some p := by
  induction m with
  | nil => simp at hp
  | cons q t ih =>
    rw [List.map_cons, List.nodup_cons] at hm
    rcases List.mem_cons.mp hp with rfl | hpt
    · rw [List.find?_cons, decide_eq_true rfl]
    · have hne : q.1 ≠ p.1 := by
        intro hc
        exact hm.1 (hc ▸ List.mem_map.mpr ⟨p, hpt, rfl⟩)
      rw [List.find?_cons, decide_eq_false hne]
      exact ih hm.2 hpt

/-! Claim theorems for the Consolidator and the Formatter. -/

/-- Claim C6: on a key collision (same lowercase hex), the existing entry
adopts a non-empty incoming label when its own is empty, and when both are
non-empty appends the incoming label to the comma-separated existing label
exactly when it is not already one of its comma-separated elements
(case-sensitive equality), preserving first-seen order; in particular the
labels `Primary` then `Primary` merge to `Primary`, and `Primary` then
`Accent` merge to `Primary, Accent`, for every choice of confidences
(`specMergedLabel` is independent of them). -/
theorem consolidate_label_merge :
    (∀ o1 o2 : Observation, jsToLower o2.hex = jsToLower o1.hex →
      (consolidateColors [o1, o2]).map Observation.label =
        [specMergedLabel o1.label o2.label]) ∧
    specMergedLabel (str "Primary") (str "Primary") = str "Primary" ∧
    specMergedLabel (str "Primary") (str "Accent") = str "Primary, Accent" := by
  refine ⟨?_, by decide, by decide⟩
  intro o1 o2 hkey
  unfold consolidateColors
  simp only [List.foldl_cons, List.foldl_nil]
  have h1 : consolidateStep [] o1 = [(jsToLower o1.hex, o1)] := rfl
  rw [h1]
  unfold consolidateStep
  dsimp only
  rw [hkey]
  simp [List.find?_cons, mergeObs_label]

/-- Claim C6 witness: the `Primary`/`Accent` merge on two concrete
observations with the same key and different confidences. -/
theorem consolidate_label_merge_witness :
    (consolidateColors [sampleObsA, sampleObsB]).map Observation.label =
      [str "Primary, Accent"] :=
  (consolidate_label_merge.1 sampleObsA sampleObsB (by decide)).trans (by decide)

/-- Claim C7: on a key collision the kept confidence is the maximum of the
existing and incoming ones under the rank high = 3 > medium = 2 > low = 1,
ties keeping the existing value; consequently the confidence of every entry
is monotone non-decreasing as further observations are folded in, so a
`high` entry is never downgraded by a later duplicate. -/
theorem consolidate_confidence_max_monotone :
    (∀ e o : Observation,
      confidenceOrder e.confidence ≠ none → confidenceOrder o.confidence ≠ none →
        rank (mergeObs e o).confidence = max (rank e.confidence) (rank o.confidence) ∧
        (rank o.confidence ≤ rank e.confidence → (mergeObs e o).confidence = e.confidence)) ∧
    (∀ (l1 l2 : List Observation) (k : JSStr) (e1 : Observation),
      mapLookup (List.foldl consolidateStep [] l1) k = some e1 →
      ∃ e2, mapLookup (List.foldl consolidateStep [] (l1 ++ l2)) k = some e2 ∧
        rank e1.confidence ≤ rank e2.confidence) := by
  constructor
  · intro e o he ho
    rcases h1 : confidenceOrder e.confidence with - | a
    · exact absurd h1 he
    rcases h2 : confidenceOrder o.confidence with - | b
    · exact absurd h2 ho
    have hre : rank e.confidence = a := by simp [rank, h1]
    have hro : rank o.confidence = b := by simp [rank, h2]
    rw [mergeObs_confidence, h1, h2]
    constructor
    · by_cases hab : a < b
      · rw [if_pos (by simp [jsGtOpt, hab]), hre, hro]
        omega
      · rw [if_neg (by simp [jsGtOpt, hab]), hre, hro]
        omega
    · intro hle
      rw [hre, hro] at hle
      rw [if_neg (by simp [jsGtOpt]; omega)]
  · intro l1 l2 k e1 h
    rw [List.foldl_append]
    exact rank_fold_mono l2 _ k e1 h

/-- Claim C7 witness: a concrete `low` duplicate arriving after a `high`
entry keeps the confidence at `high` (rank 3). -/
theorem consolidate_confidence_max_monotone_witness :
    rank (mergeObs sampleObsB sampleObsA).confidence =
      max (rank sampleObsB.confidence) (rank sampleObsA.confidence) ∧
    (mergeObs sampleObsB sampleObsA).confidence = sampleObsB.confidence :=
  ⟨(consolidate_confidence_max_monotone.1 sampleObsB sampleObsA (by decide) (by decide)).1,
   (consolidate_confidence_max_monotone.1 sampleObsB sampleObsA (by decide) (by decide)).2
     (by decide)⟩

/-- Claim C8: the consolidated output has exactly one entry per distinct
lowercase hex key, listed in the order of each key's first occurrence in the
input (the key sequence of the output is the first-occurrence deduplication
of the input key sequence, with no reordering by confidence or count). -/
theorem consolidate_first_occurrence_order (obs : List Observation) :
    (consolidateColors obs).map (fun o => jsToLower o.hex) =
      firstDedup (obs.map (fun o => jsToLower o.hex)) ∧
    ((consolidateColors obs).map (fun o => jsToLower o.hex)).Nodup ∧
    (∀ k, k ∈ (consolidateColors obs).map (fun o => jsToLower o.hex) ↔
      k ∈ obs.map (fun o => jsToLower o.hex)) := by
  have hkeys : (consolidateColors obs).map (fun o => jsToLower o.hex) =
      (obs.foldl consolidateStep []).map Prod.fst := by
    unfold consolidateColors
    rw [List.map_map]
    apply List.map_congr_left
    intro p hp
    exact (entriesKeyed_fold obs [] (by simp) p hp).symm
  refine ⟨?_, ?_, ?_⟩
  · rw [hkeys, keys_fold obs []]
    simp [firstDedup]
  · rw [hkeys]
    exact keysNodup_fold obs [] (by simp)
  · intro k
    rw [hkeys, keys_fold obs []]
    simp [dedupFirstAux_mem]

/-- Claim C10: a key collision mutates only the label and confidence of the
existing entry: every consolidated entry agrees on `hex`, `rgb`, `lch`,
`oklch` and `hasAlpha` with the first input observation carrying its
lowercase hex key. -/
theorem consolidate_collision_frame (obs : List Observation) (e : Observation)
    (he : e ∈ consolidateColors obs) :
    ∃ o, obs.find? (fun o => decide (jsToLower o.hex = jsToLower e.hex)) = some o ∧
      e.hex = o.hex ∧ e.rgb = o.rgb ∧ e.lch = o.lch ∧ e.oklch = o.oklch ∧
      e.hasAlpha = o.hasAlpha := by
  unfold consolidateColors at he
  rcases List.mem_map.mp he with ⟨p, hp, rfl⟩
  have hkeyed := entriesKeyed_fold obs [] (by simp) p hp
  have hnodup := keysNodup_fold obs [] (by simp)
  have hfind := find?_eq_of_nodup_keys _ hnodup p hp
  have hlook : mapLookup (obs.foldl consolidateStep []) p.1 = some p.2 := by
    unfold mapLookup
    rw [hfind]
    rfl
  rcases frame_fold obs [] p.1 p.2 hlook with ⟨e0, h0, -⟩ | ⟨-, o, hfind2, hfr⟩
  · simp [mapLookup] at h0
  · obtain ⟨f1, f2, f3, f4, f5⟩ := hfr
    refine ⟨o, ?_, f1, f2, f3, f4, f5⟩
    rw [← hkeyed]
    exact hfind2

/-- Claim C10 witness: the consolidated entry of two colliding concrete
observations keeps the frame fields of the first one. -/
theorem consolidate_collision_frame_witness :
    ∃ o, [sampleObsA, sampleObsB].find?
        (fun o => decide (jsToLower o.hex =
          jsToLower (str "#AABBCC"))) = some o ∧
      str "#AABBCC" = o.hex ∧ str "rgb(170, 187, 204)" = o.rgb ∧
      str "lchA" = o.lch ∧ str "oklchA" = o.oklch ∧ false = o.hasAlpha :=
  consolidate_collision_frame [sampleObsA, sampleObsB]
    ⟨str "#AABBCC", str "rgb(170, 187, 204)", str "lchA", str "oklchA", false,
      str "Primary, Accent", str "semantic", str "high"⟩ (by decide)

/-- Claim C9: `formatOklch` renders L as the percentage `round(L*10000)/100`,
C rounded to 3 decimal places, H rounded to 2 decimal places, and appends the
`/ alpha` suffix exactly when the alpha argument is defined and strictly less
than 1 — the code equals the formatter described by the spec for every oklch
triple and optional alpha. -/
theorem formatOklch_matches_spec (oklch : OklchQ) (alpha : Option ℚ) :
    formatOklch oklch alpha = specFormatOklch oklch alpha := by
  unfold formatOklch specFormatOklch
  rcases alpha with - | a
  · simp
  · dsimp only
    split_ifs with h <;> simp [List.append_assoc]

/-! Helper lemmas about characters, digit strings and the parser. -/

theorem char_toNat_inj {c d : Char} (h : c.toNat = d.toNat) : c = d :=
  Char.ext (UInt32.ext (by simpa using h))

theorem class_ne {p : Char → Bool} {c d : Char} (hc : p c = true) (hd : p d = false) :
    c ≠ d := by
  intro h
  subst h
  rw [hc] at hd
  cases hd

theorem hexDigit_not_ws {c : Char} (h : isHexDigitCh c = true) :
    isJsWhitespace c = false := by
  cases hws : isJsWhitespace c
  · rfl
  · exfalso
    simp only [isJsWhitespace, Bool.or_eq_true, decide_eq_true_eq] at hws
    rcases hws with ((((rfl | rfl) | rfl) | rfl) | rfl) | rfl <;> exact absurd h (by decide)

theorem digit_not_ws {c : Char} (h : isDigitCh c = true) : isJsWhitespace c = false :=
  hexDigit_not_ws (by simp [isHexDigitCh, h])

theorem digitDot_not_ws {c : Char} (h : isDigitDotCh c = true) :
    isJsWhitespace c = false := by
  simp only [isDigitDotCh, Bool.or_eq_true, decide_eq_true_eq] at h
  rcases h with h | rfl
  · exact digit_not_ws h
  · decide

theorem takeWhile_append_stop (p : Char → Bool) (xs ys : JSStr)
    (hx : ∀ x ∈ xs, p x = true) (hy : ∀ y, ys.head? = some y → p y = false) :
    (xs ++ ys).takeWhile p = xs ∧ (xs ++ ys).dropWhile p = ys := by
  induction xs with
  | nil =>
    simp only [List.nil_append]
    cases ys with
    | nil => exact ⟨rfl, rfl⟩
    | cons y t =>
      have := hy y rfl
      simp [List.takeWhile_cons, List.dropWhile_cons, this]
  | cons x xs ih =>
    have hpx : p x = true := hx x (by simp)
    have hrest := ih (fun a ha => hx a (by simp [ha]))
    simp only [List.cons_append, List.takeWhile_cons, List.dropWhile_cons, hpx]
    simp only [if_true]
    exact ⟨by rw [hrest.1], by rw [hrest.2]⟩

/-- Evaluation of `toString(16).padStart(2, "0")` on the byte range. -/
theorem padStart2_natToString16 :
    ∀ n < 256, padStart2 (natToString16 n) =
      [hexDigitChar (n / 16), hexDigitChar (n % 16)] := by
  set_option maxRecDepth 10000 in decide

/-- Round trip: `parseInt(_, 16)` recovers the value of two rendered hex
digits. -/
theorem jsParseInt16_hexDigitChar_pair :
    ∀ a < 16, ∀ b < 16,
      jsParseInt16 [hexDigitChar a, hexDigitChar b] =
        some (((16 * a + b : ℕ) : ℤ)) := by
  decide

theorem hexDigitChar_lt16_isHexDigit : ∀ d < 16, isHexDigitCh (hexDigitChar d) = true := by
  decide

theorem jsLowerChar_hexDigitChar : ∀ d < 16, jsLowerChar (hexDigitChar d) = hexDigitChar d := by
  decide

theorem hexDigitChar_digit_toNat : ∀ n < 58, 48 ≤ n → (hexDigitChar (n - 48)).toNat = n := by
  decide

theorem hexDigitChar_lower_toNat : ∀ n < 103, 97 ≤ n → (hexDigitChar (n - 87)).toNat = n := by
  decide

theorem hexDigitChar_upper_toNat : ∀ n < 71, 65 ≤ n → (hexDigitChar (n - 55)).toNat = n + 32 := by
  decide

theorem jsLowerChar_toNat (c : Char) :
    (jsLowerChar c).toNat =
      if 65 ≤ c.toNat ∧ c.toNat ≤ 90 then c.toNat + 32 else c.toNat := by
  unfold jsLowerChar
  split_ifs with h
  · rfl
  · rfl

theorem jsLowerChar_idem (c : Char) : jsLowerChar (jsLowerChar c) = jsLowerChar c := by
  apply char_toNat_inj
  rw [jsLowerChar_toNat (jsLowerChar c), jsLowerChar_toNat c]
  split_ifs <;> omega

/-- Rendering the value of a hex digit reproduces its lowercase form. -/
theorem hexDigitChar_hexDigitVal {c : Char} (h : isHexDigitCh c = true) :
    hexDigitChar (hexDigitVal c) = jsLowerChar c ∧ hexDigitVal c < 16 := by
  simp only [isHexDigitCh, isDigitCh, Bool.or_eq_true, Bool.and_eq_true,
    decide_eq_true_eq] at h
  rcases h with (⟨h1, h2⟩ | ⟨h1, h2⟩) | ⟨h1, h2⟩
  · -- 0-9
    have hv : hexDigitVal c = c.toNat - 48 := by
      unfold hexDigitVal
      rw [if_pos (by simp [isDigitCh]; omega)]
    have hl : jsLowerChar c = c := by
      unfold jsLowerChar
      rw [dif_neg (by omega)]
    rw [hv, hl]
    refine ⟨char_toNat_inj ?_, by omega⟩
    exact hexDigitChar_digit_toNat c.toNat (by omega) h1
  · -- a-f
    have hv : hexDigitVal c = c.toNat - 87 := by
      unfold hexDigitVal
      rw [if_neg (by simp [isDigitCh]; omega), if_pos (by simp; omega)]
    have hl : jsLowerChar c = c := by
      unfold jsLowerChar
      rw [dif_neg (by omega)]
    rw [hv, hl]
    refine ⟨char_toNat_inj ?_, by omega⟩
    exact hexDigitChar_lower_toNat c.toNat (by omega) h1
  · -- A-F
    have hv : hexDigitVal c = c.toNat - 55 := by
      unfold hexDigitVal
      rw [if_neg (by simp [isDigitCh]; omega), if_neg (by simp; omega),
        if_pos (by simp; omega)]
    have hl : jsLowerChar c = Char.ofNatAux (c.toNat + 32) (Or.inl (by omega)) := by
      unfold jsLowerChar
      rw [dif_pos (by omega)]
    rw [hv, hl]
    refine ⟨char_toNat_inj ?_, by omega⟩
    have hrhs : (Char.ofNatAux (c.toNat + 32) (Or.inl (by omega))).toNat = c.toNat + 32 := rfl
    rw [hrhs]
    exact hexDigitChar_upper_toNat c.toNat (by omega) h1

/-- A two-hex-digit string parses to its value. -/
theorem jsParseInt16_pair {c1 c2 : Char} (h1 : isHexDigitCh c1 = true)
    (h2 : isHexDigitCh c2 = true) :
    jsParseInt16 [c1, c2] = some (((16 * hexDigitVal c1 + hexDigitVal c2 : ℕ) : ℤ)) := by
  have hw1 := hexDigit_not_ws h1
  have hminus : c1 ≠ '-' := class_ne h1 (by decide)
  have hplus : c1 ≠ '+' := class_ne h1 (by decide)
  have hx : c2 ≠ 'x' := class_ne h2 (by decide)
  have hX : c2 ≠ 'X' := class_ne h2 (by decide)
  unfold jsParseInt16
  dsimp only
  simp [List.dropWhile_cons, List.takeWhile_cons, hw1, hminus, hplus, hx, hX, h1, h2,
    digitsVal16]

theorem length_eq_six {l : JSStr} (h : l.length = 6) :
    ∃ c1 c2 c3 c4 c5 c6, l = [c1, c2, c3, c4, c5, c6] := by
  match l, h with
  | [c1, c2, c3, c4, c5, c6], _ => exact ⟨c1, c2, c3, c4, c5, c6, rfl⟩

theorem matchRgbaAt_none_of_no_r {s : JSStr} (h : ∀ c ∈ s, c ≠ 'r') :
    matchRgbaAt s = none := by
  unfold matchRgbaAt
  rw [if_pos]
  intro hc
  match s, hc with
  | c :: t, hc =>
    have : c = 'r' := by
      have := congrArg (fun l => l.head?) hc
      simpa [str] using this
    exact h c (by simp) this

theorem findRgba_none_of_no_r {s : JSStr} (h : ∀ c ∈ s, c ≠ 'r') :
    findRgba s = none := by
  induction s with
  | nil => rfl
  | cons c t ih =>
    unfold findRgba
    rw [matchRgbaAt_none_of_no_r h]
    exact ih (fun x hx => h x (by simp [hx]))

theorem hexToRgb_cons_hash_len6 (ds : JSStr) (h : ds.length = 6) :
    hexToRgb ('#' :: ds) =
      some { r := jsParseInt16 (ds.take 2)
             g := jsParseInt16 ((ds.drop 2).take 2)
             b := jsParseInt16 ((ds.drop 4).take 2)
             a := JsAlpha.undefined } := by
  unfold hexToRgb
  rw [if_neg (by simp)]
  dsimp only [List.tail_cons]
  rw [if_neg (by omega), if_pos h]
  rw [List.drop_zero]

/-- Claim C3: for every string that is `#` followed by exactly six hex digits,
`convertColor` succeeds and its `hex` field is the input lowercased. -/
theorem convertColor_hex6_lowercase (ds : JSStr) (hlen : ds.length = 6)
    (hhex : ∀ c ∈ ds, isHexDigitCh c = true) :
    ∃ rec, convertColor ('#' :: ds) = some rec ∧ rec.hex = jsToLower ('#' :: ds) := by
  obtain ⟨c1, c2, c3, c4, c5, c6, rfl⟩ := length_eq_six hlen
  have h1 : isHexDigitCh c1 = true := hhex c1 (by simp)
  have h2 : isHexDigitCh c2 = true := hhex c2 (by simp)
  have h3 : isHexDigitCh c3 = true := hhex c3 (by simp)
  have h4 : isHexDigitCh c4 = true := hhex c4 (by simp)
  have h5 : isHexDigitCh c5 = true := hhex c5 (by simp)
  have h6 : isHexDigitCh c6 = true := hhex c6 (by simp)
  have hfind : findRgba ('#' :: [c1, c2, c3, c4, c5, c6]) = none := by
    refine findRgba_none_of_no_r ?_
    intro c hc
    rcases List.mem_cons.mp hc with rfl | hc2
    · decide
    · simp at hc2
      rcases hc2 with rfl | rfl | rfl | rfl | rfl | rfl <;>
        exact class_ne (by assumption) (by decide)
  unfold convertColor
  rw [hfind]
  rw [hexToRgb_cons_hash_len6 _ (by simp)]
  dsimp only
  refine ⟨_, rfl, ?_⟩
  have e1 := jsParseInt16_pair h1 h2
  have e2 := jsParseInt16_pair h3 h4
  have e3 := jsParseInt16_pair h5 h6
  simp only [List.take_succ_cons, List.take_zero, List.drop_succ_cons, List.drop_zero] at *
  unfold mkColorRecord
  dsimp only
  rw [e1, e2, e3]
  obtain ⟨q1, v1⟩ := hexDigitChar_hexDigitVal h1
  obtain ⟨q2, v2⟩ := hexDigitChar_hexDigitVal h2
  obtain ⟨q3, v3⟩ := hexDigitChar_hexDigitVal h3
  obtain ⟨q4, v4⟩ := hexDigitChar_hexDigitVal h4
  obtain ⟨q5, v5⟩ := hexDigitChar_hexDigitVal h5
  obtain ⟨q6, v6⟩ := hexDigitChar_hexDigitVal h6
  have pads : ∀ a b : ℕ, a < 16 → b < 16 →
      padStart2 (jsNumToString16 (some (((16 * a + b : ℕ) : ℤ)))) =
        [hexDigitChar a, hexDigitChar b] := by
    intro a b ha hb
    have h0 : ¬(((16 * a + b : ℕ) : ℤ) < 0) := by omega
    unfold jsNumToString16
    dsimp only
    rw [if_neg h0, Int.natAbs_ofNat]
    rw [padStart2_natToString16 (16 * a + b) (by omega)]
    have hdiv : (16 * a + b) / 16 = a := by omega
    have hmod : (16 * a + b) % 16 = b := by omega
    rw [hdiv, hmod]
  rw [pads _ _ v1 v2, pads _ _ v3 v4, pads _ _ v5 v6]
  unfold jsToLower
  simp only [List.map_cons, List.map_nil, List.cons_append, List.nil_append]
  rw [q1, q2, q3, q4, q5, q6]
  have hhash : jsLowerChar '#' = '#' := by decide
  rw [hhash]
  simp [jsLowerChar_idem]

/-- Claim C3 witness: a concrete mixed-case 6-digit hex input. -/
theorem convertColor_hex6_lowercase_witness :
    ∃ rec, convertColor ('#' :: str "AbCdEf") = some rec ∧
      rec.hex = jsToLower ('#' :: str "AbCdEf") :=
  convertColor_hex6_lowercase (str "AbCdEf") (by decide) (by decide)

theorem convertColor_shape (x : JSStr) (rec : ColorRecord)
    (h : convertColor x = some rec) :
    rec = mkColorRecord rec.r rec.g rec.b rec.alpha := by
  unfold convertColor at h
  rcases hf : findRgba x with - | m
  · rw [hf] at h
    rcases hh : hexToRgb x with - | p
    · rw [hh] at h
      cases h
    · rw [hh] at h
      dsimp only at h
      injection h with h2
      subst h2
      rfl
  · rw [hf] at h
    dsimp only at h
    injection h with h2
    subst h2
    rfl

theorem mkColorRecord_hex (r g b : ℤ) (a : JsAlpha)
    (hr : 0 ≤ r ∧ r ≤ 255) (hg : 0 ≤ g ∧ g ≤ 255) (hb : 0 ≤ b ∧ b ≤ 255) :
    (mkColorRecord (some r) (some g) (some b) a).hex =
      '#' :: [hexDigitChar (r.natAbs / 16), hexDigitChar (r.natAbs % 16),
              hexDigitChar (g.natAbs / 16), hexDigitChar (g.natAbs % 16),
              hexDigitChar (b.natAbs / 16), hexDigitChar (b.natAbs % 16)] := by
  have hpad : ∀ n : ℤ, 0 ≤ n → n ≤ 255 →
      padStart2 (jsNumToString16 (some n)) =
        [hexDigitChar (n.natAbs / 16), hexDigitChar (n.natAbs % 16)] := by
    intro n h0 h255
    unfold jsNumToString16
    dsimp only
    rw [if_neg (by omega)]
    exact padStart2_natToString16 n.natAbs (by omega)
  unfold mkColorRecord
  dsimp only
  rw [hpad r hr.1 hr.2, hpad g hg.1 hg.2, hpad b hb.1 hb.2]
  unfold jsToLower
  simp only [List.cons_append, List.nil_append, List.map_cons, List.map_nil]
  rw [show jsLowerChar '#' = '#' from by decide]
  rw [jsLowerChar_hexDigitChar _ (by omega), jsLowerChar_hexDigitChar _ (by omega),
    jsLowerChar_hexDigitChar _ (by omega), jsLowerChar_hexDigitChar _ (by omega),
    jsLowerChar_hexDigitChar _ (by omega), jsLowerChar_hexDigitChar _ (by omega)]

theorem convertColor_hexCharString (a1 b1 a2 b2 a3 b3 : ℕ)
    (h : a1 < 16 ∧ b1 < 16 ∧ a2 < 16 ∧ b2 < 16 ∧ a3 < 16 ∧ b3 < 16) :
    convertColor ('#' :: [hexDigitChar a1, hexDigitChar b1, hexDigitChar a2,
        hexDigitChar b2, hexDigitChar a3, hexDigitChar b3]) =
      some (mkColorRecord (some ((16 * a1 + b1 : ℕ) : ℤ))
        (some ((16 * a2 + b2 : ℕ) : ℤ)) (some ((16 * a3 + b3 : ℕ) : ℤ))
        JsAlpha.undefined) := by
  obtain ⟨ha1, hb1, ha2, hb2, ha3, hb3⟩ := h
  have hfind : findRgba ('#' :: [hexDigitChar a1, hexDigitChar b1, hexDigitChar a2,
      hexDigitChar b2, hexDigitChar a3, hexDigitChar b3]) = none := by
    refine findRgba_none_of_no_r ?_
    intro c hc
    rcases List.mem_cons.mp hc with rfl | hc2
    · decide
    · simp at hc2
      rcases hc2 with rfl | rfl | rfl | rfl | rfl | rfl <;>
        exact class_ne (hexDigitChar_lt16_isHexDigit _ (by assumption)) (by decide)
  unfold convertColor
  rw [hfind, hexToRgb_cons_hash_len6 _ (by simp)]
  dsimp only
  simp only [List.take_succ_cons, List.take_zero, List.drop_succ_cons, List.drop_zero]
  rw [jsParseInt16_hexDigitChar_pair a1 ha1 b1 hb1,
    jsParseInt16_hexDigitChar_pair a2 ha2 b2 hb2,
    jsParseInt16_hexDigitChar_pair a3 ha3 b3 hb3]

/-- Claim C5 counterexample: `"rgb(999, 0, 0)"` is parseable, its record's
hex field is the 7-digit string `"#3e70000"`, and `convertColor` of that hex
field is `null` — so `convertColor(convertColor(x).hex)` does not succeed for
every parseable `x`. -/
theorem convertColor_hex_not_idempotent :
    (convertColor (str "rgb(999, 0, 0)")).isSome = true ∧
    ((convertColor (str "rgb(999, 0, 0)")).map ColorRecord.hex) =
      some (str "#3e70000") ∧
    ((convertColor (str "rgb(999, 0, 0)")).bind
      (fun rec => convertColor rec.hex)) = none := by
  refine ⟨by decide, by decide, by decide⟩

/-- Claim C5 (amended): `convertColor` is idempotent through its `hex` field
for every parseable input whose three parsed channels are integers in
`[0, 255]` (equivalently, whose `hex` field is `#` plus six hex digits);
outside that range — channels above 255 or `NaN` channels from length-valid
but digit-invalid hex — the rebuilt hex string is not six digits long and
re-parsing returns null. -/
theorem convertColor_hex_idempotent_in_range (x : JSStr) (rec : ColorRecord)
    (hx : convertColor x = some rec)
    (hr : ∃ n, rec.r = some n ∧ 0 ≤ n ∧ n ≤ 255)
    (hg : ∃ n, rec.g = some n ∧ 0 ≤ n ∧ n ≤ 255)
    (hb : ∃ n, rec.b = some n ∧ 0 ≤ n ∧ n ≤ 255) :
    ∃ rec2, convertColor rec.hex = some rec2 ∧ rec2.hex = rec.hex := by
  obtain ⟨nr, hnr, hr0, hr1⟩ := hr
  obtain ⟨ng, hng, hg0, hg1⟩ := hg
  obtain ⟨nb, hnb, hb0, hb1⟩ := hb
  have hshape := convertColor_shape x rec hx
  have hhex : rec.hex = (mkColorRecord (some nr) (some ng) (some nb) rec.alpha).hex := by
    conv_lhs => rw [hshape]
    rw [hnr, hng, hnb]
  rw [hhex, mkColorRecord_hex nr ng nb rec.alpha ⟨hr0, hr1⟩ ⟨hg0, hg1⟩ ⟨hb0, hb1⟩]
  have happ := convertColor_hexCharString (nr.natAbs / 16) (nr.natAbs % 16)
    (ng.natAbs / 16) (ng.natAbs % 16) (nb.natAbs / 16) (nb.natAbs % 16)
    ⟨by omega, by omega, by omega, by omega, by omega, by omega⟩
  have er : ((16 * (nr.natAbs / 16) + nr.natAbs % 16 : ℕ) : ℤ) = nr := by omega
  have eg : ((16 * (ng.natAbs / 16) + ng.natAbs % 16 : ℕ) : ℤ) = ng := by omega
  have eb : ((16 * (nb.natAbs / 16) + nb.natAbs % 16 : ℕ) : ℤ) = nb := by omega
  rw [er, eg, eb] at happ
  refine ⟨_, happ, ?_⟩
  rw [mkColorRecord_hex nr ng nb JsAlpha.undefined ⟨hr0, hr1⟩ ⟨hg0, hg1⟩ ⟨hb0, hb1⟩]

/-- Claim C5 witness: idempotence through the hex field on the concrete
parseable input `"rgb(1, 2, 3)"`. -/
theorem convertColor_hex_idempotent_in_range_witness :
    ∃ rec2, convertColor (ColorRecord.hex ⟨str "#010203", str "rgb(1, 2, 3)",
        some 1, some 2, some 3, JsAlpha.undefined, false⟩) = some rec2 ∧
      rec2.hex = ColorRecord.hex ⟨str "#010203", str "rgb(1, 2, 3)",
        some 1, some 2, some 3, JsAlpha.undefined, false⟩ :=
  convertColor_hex_idempotent_in_range (str "rgb(1, 2, 3)") _ (by decide)
    ⟨1, by decide, by decide, by decide⟩ ⟨2, by decide, by decide, by decide⟩
    ⟨3, by decide, by decide, by decide⟩

theorem takeWhile_append_cons_stop (p : Char → Bool) (xs : JSStr) (y : Char) (ys : JSStr)
    (hx : ∀ x ∈ xs, p x = true) (hy : p y = false) :
    (xs ++ y :: ys).takeWhile p = xs ∧ (xs ++ y :: ys).dropWhile p = y :: ys :=
  takeWhile_append_stop p xs (y :: ys) hx (fun z hz => by simp at hz; exact hz ▸ hy)

theorem isEmpty_false_of_ne_nil {l : JSStr} (h : l ≠ []) : l.isEmpty = false := by
  cases l with
  | nil => exact absurd rfl h
  | cons a t => rfl

theorem matchRgbaGroups_grammar (d1 w1 d2 w2 d3 E : JSStr)
    (hd1 : d1 ≠ []) (hd1d : ∀ c ∈ d1, isDigitCh c = true)
    (hw1 : ∀ c ∈ w1, isJsWhitespace c = true)
    (hd2 : d2 ≠ []) (hd2d : ∀ c ∈ d2, isDigitCh c = true)
    (hw2 : ∀ c ∈ w2, isJsWhitespace c = true)
    (hd3 : d3 ≠ []) (hd3d : ∀ c ∈ d3, isDigitCh c = true)
    (hE : E = [] ∨ ∃ w3 f, (∀ c ∈ w3, isJsWhitespace c = true) ∧ f ≠ [] ∧
      (∀ c ∈ f, isDigitDotCh c = true) ∧ E = ',' :: w3 ++ f) :
    (matchRgbaGroups (d1 ++ ',' :: w1 ++ d2 ++ ',' :: w2 ++ d3 ++ E ++ [')'])).isSome =
      true := by
  obtain ⟨x2, d2t, rfl⟩ : ∃ x t, d2 = x :: t := by
    cases d2 with
    | nil => exact absurd rfl hd2
    | cons a t => exact ⟨a, t, rfl⟩
  obtain ⟨x3, d3t, rfl⟩ : ∃ x t, d3 = x :: t := by
    cases d3 with
    | nil => exact absurd rfl hd3
    | cons a t => exact ⟨a, t, rfl⟩
  have hx2w : isJsWhitespace x2 = false := digit_not_ws (hd2d x2 (by simp))
  have hx3w : isJsWhitespace x3 = false := digit_not_ws (hd3d x3 (by simp))
  rcases hE with rfl | ⟨w3, f, hw3, hf, hfd, rfl⟩
  · simp only [List.cons_append, List.append_assoc, List.nil_append, List.singleton_append]
    unfold matchRgbaGroups
    dsimp only
    rw [(takeWhile_append_cons_stop isDigitCh d1 ','
          (w1 ++ x2 :: (d2t ++ ',' :: (w2 ++ x3 :: (d3t ++ [')'])))) hd1d (by decide)).1,
        (takeWhile_append_cons_stop isDigitCh d1 ','
          (w1 ++ x2 :: (d2t ++ ',' :: (w2 ++ x3 :: (d3t ++ [')'])))) hd1d (by decide)).2,
        isEmpty_false_of_ne_nil hd1]
    simp only [Bool.false_eq_true, if_false, List.head?_cons, ne_eq, Option.some.injEq,
      not_true_eq_false, List.tail_cons]
    rw [(takeWhile_append_cons_stop isJsWhitespace w1 x2
          (d2t ++ ',' :: (w2 ++ x3 :: (d3t ++ [')']))) hw1 hx2w).2]
    have s2 := takeWhile_append_cons_stop isDigitCh (x2 :: d2t) ','
      (w2 ++ x3 :: (d3t ++ [')'])) hd2d (by decide)
    simp only [List.cons_append] at s2
    rw [s2.1, s2.2]
    simp only [List.isEmpty_cons, Bool.false_eq_true, if_false, List.head?_cons, ne_eq,
      Option.some.injEq, not_true_eq_false, List.tail_cons]
    rw [(takeWhile_append_cons_stop isJsWhitespace w2 x3 (d3t ++ [')']) hw2 hx3w).2]
    have s4 := takeWhile_append_cons_stop isDigitCh (x3 :: d3t) ')' [] hd3d (by decide)
    simp only [List.cons_append] at s4
    rw [s4.1, s4.2]
    simp
  · obtain ⟨xf, ft, rfl⟩ : ∃ x t, f = x :: t := by
      cases f with
      | nil => exact absurd rfl hf
      | cons a t => exact ⟨a, t, rfl⟩
    have hxfw : isJsWhitespace xf = false := digitDot_not_ws (hfd xf (by simp))
    simp only [List.cons_append, List.append_assoc, List.nil_append, List.singleton_append]
    unfold matchRgbaGroups
    dsimp only
    rw [(takeWhile_append_cons_stop isDigitCh d1 ','
          (w1 ++ x2 :: (d2t ++ ',' :: (w2 ++ x3 ::
            (d3t ++ ',' :: (w3 ++ xf :: (ft ++ [')'])))))) hd1d (by decide)).1,
        (takeWhile_append_cons_stop isDigitCh d1 ','
          (w1 ++ x2 :: (d2t ++ ',' :: (w2 ++ x3 ::
            (d3t ++ ',' :: (w3 ++ xf :: (ft ++ [')'])))))) hd1d (by decide)).2,
        isEmpty_false_of_ne_nil hd1]
    simp only [Bool.false_eq_true, if_false, List.head?_cons, ne_eq, Option.some.injEq,
      not_true_eq_false, List.tail_cons]
    rw [(takeWhile_append_cons_stop isJsWhitespace w1 x2
          (d2t ++ ',' :: (w2 ++ x3 :: (d3t ++ ',' :: (w3 ++ xf :: (ft ++ [')'])))))
          hw1 hx2w).2]
    have s2 := takeWhile_append_cons_stop isDigitCh (x2 :: d2t) ','
      (w2 ++ x3 :: (d3t ++ ',' :: (w3 ++ xf :: (ft ++ [')'])))) hd2d (by decide)
    simp only [List.cons_append] at s2
    rw [s2.1, s2.2]
    simp only [List.isEmpty_cons, Bool.false_eq_true, if_false, List.head?_cons, ne_eq,
      Option.some.injEq, not_true_eq_false, List.tail_cons]
    rw [(takeWhile_append_cons_stop isJsWhitespace w2 x3
          (d3t ++ ',' :: (w3 ++ xf :: (ft ++ [')']))) hw2 hx3w).2]
    have s4 := takeWhile_append_cons_stop isDigitCh (x3 :: d3t) ','
      (w3 ++ xf :: (ft ++ [')'])) hd3d (by decide)
    simp only [List.cons_append] at s4
    rw [s4.1, s4.2]
    simp only [List.isEmpty_cons, Bool.false_eq_true, if_false, List.head?_cons, ne_eq,
      Option.some.injEq, not_true_eq_false, List.tail_cons]
    simp only [if_true]
    rw [(takeWhile_append_cons_stop isJsWhitespace w3 xf (ft ++ [')']) hw3 hxfw).2]
    have s6 := takeWhile_append_cons_stop isDigitDotCh (xf :: ft) ')' [] hfd (by decide)
    simp only [List.cons_append] at s6
    rw [s6.1, s6.2]
    simp

theorem take3_cons (a b c : Char) (X : JSStr) : List.take 3 (a :: b :: c :: X) = [a, b, c] := rfl

theorem drop3_cons (a b c : Char) (X : JSStr) : List.drop 3 (a :: b :: c :: X) = X := rfl

theorem take2_cons (a b : Char) (X : JSStr) : List.take 2 (a :: b :: X) = [a, b] := rfl

theorem take1_cons (a : Char) (X : JSStr) : List.take 1 (a :: X) = [a] := rfl

theorem drop2_cons (a b : Char) (X : JSStr) : List.drop 2 (a :: b :: X) = X := rfl

theorem drop1_cons (a : Char) (X : JSStr) : List.drop 1 (a :: X) = X := rfl

theorem matchRgbaAt_isSome_of_grammar (s : JSStr) (h : IsRgbGrammar s) :
    (matchRgbaAt s).isSome = true := by
  obtain ⟨atag, d1, w1, d2, w2, d3, opt, hd1, hd1d, hw1, hd2, hd2d, hw2, hd3, hd3d,
    hopt, heq⟩ := h
  obtain ⟨x1, d1t, rfl⟩ : ∃ x t, d1 = x :: t := by
    cases d1 with
    | nil => exact absurd rfl hd1
    | cons a t => exact ⟨a, t, rfl⟩
  rcases opt with - | ⟨w3, f⟩
  · have hgroups := matchRgbaGroups_grammar (x1 :: d1t) w1 d2 w2 d3 [] hd1 hd1d hw1
      hd2 hd2d hw2 hd3 hd3d (Or.inl rfl)
    simp only [List.cons_append, List.append_assoc, List.singleton_append,
      List.nil_append] at hgroups
    subst heq
    dsimp only
    cases atag
    · unfold matchRgbaAt
      rw [show str "rgb" = ['r', 'g', 'b'] from rfl, show str "a(" = ['a', '('] from rfl,
        show str "(" = ['('] from rfl]
      simp only [Bool.false_eq_true, if_false, eq_self_iff_true, if_true, List.cons_append,
        List.append_assoc, List.singleton_append, List.nil_append]
      rw [take3_cons, drop3_cons]
      simp only [ne_eq, not_true_eq_false, if_false, take2_cons, take1_cons, drop1_cons,
        List.cons.injEq]
      simp only [show ('(' = 'a') = False from by simp, false_and, if_false,
        eq_self_iff_true, and_self, if_true]
      exact hgroups
    · unfold matchRgbaAt
      rw [show str "rgb" = ['r', 'g', 'b'] from rfl, show str "a(" = ['a', '('] from rfl]
      simp only [eq_self_iff_true, if_true, List.cons_append, List.append_assoc,
        List.singleton_append, List.nil_append]
      rw [take3_cons, drop3_cons]
      simp only [ne_eq, not_true_eq_false, if_false, take2_cons, drop2_cons,
        eq_self_iff_true, and_self, if_true, List.cons.injEq]
      exact hgroups
  · obtain ⟨hw3, hf, hfd⟩ := hopt
    have hgroups := matchRgbaGroups_grammar (x1 :: d1t) w1 d2 w2 d3 (',' :: w3 ++ f)
      hd1 hd1d hw1 hd2 hd2d hw2 hd3 hd3d (Or.inr ⟨w3, f, hw3, hf, hfd, rfl⟩)
    simp only [List.cons_append, List.append_assoc, List.singleton_append,
      List.nil_append] at hgroups
    subst heq
    dsimp only
    cases atag
    · unfold matchRgbaAt
      rw [show str "rgb" = ['r', 'g', 'b'] from rfl, show str "a(" = ['a', '('] from rfl,
        show str "(" = ['('] from rfl]
      simp only [Bool.false_eq_true, if_false, eq_self_iff_true, if_true, List.cons_append,
        List.append_assoc, List.singleton_append, List.nil_append]
      rw [take3_cons, drop3_cons]
      simp only [ne_eq, not_true_eq_false, if_false, take2_cons, take1_cons, drop1_cons,
        List.cons.injEq]
      simp only [show ('(' = 'a') = False from by simp, false_and, if_false,
        eq_self_iff_true, and_self, if_true]
      exact hgroups
    · unfold matchRgbaAt
      rw [show str "rgb" = ['r', 'g', 'b'] from rfl, show str "a(" = ['a', '('] from rfl]
      simp only [eq_self_iff_true, if_true, List.cons_append, List.append_assoc,
        List.singleton_append, List.nil_append]
      rw [take3_cons, drop3_cons]
      simp only [ne_eq, not_true_eq_false, if_false, take2_cons, drop2_cons,
        eq_self_iff_true, and_self, if_true, List.cons.injEq]
      exact hgroups

theorem findRgba_isSome_of_grammar (s : JSStr) (h : IsRgbGrammar s) :
    (findRgba s).isSome = true := by
  have hm := matchRgbaAt_isSome_of_grammar s h
  cases s with
  | nil =>
    rw [show matchRgbaAt ([] : JSStr) = none from by decide] at hm
    cases hm
  | cons c t =>
    unfold findRgba
    rcases hmm : matchRgbaAt (c :: t) with - | m
    · rw [hmm] at hm
      cases hm
    · rfl

theorem hexToRgb_isSome_of_grammar (s : JSStr) (h : IsHexGrammar s) :
    (hexToRgb s).isSome = true := by
  obtain ⟨ds, rfl, hlen, -⟩ := h
  unfold hexToRgb
  rw [if_neg (by simp)]
  dsimp only [List.tail_cons]
  rcases hlen with h3 | h6 | h8
  · rw [if_pos h3]
    rfl
  · rw [if_neg (by omega), if_pos h6]
    rfl
  · rw [if_neg (by omega), if_neg (by omega), if_pos h8]
    rfl

/-- Claim C1 (amended): `convertColor` returns a record for every string in
the hex or `rgb()`/`rgba()` grammar, and returns null exactly when the rgba
regex matches nowhere in the string and `hexToRgb` fails its shape test (a
leading `#` and 3, 6 or 8 following characters).  Hex-digit validity is not
checked, so some strings outside both grammars (e.g. `"#ggg"`) still return a
record, with `NaN` channels. -/
theorem convertColor_null_characterization (s : JSStr) :
    ((IsHexGrammar s ∨ IsRgbGrammar s) → (convertColor s).isSome = true) ∧
    (convertColor s = none ↔ findRgba s = none ∧ hexToRgb s = none) := by
  constructor
  · intro h
    rcases h with hhex | hrgb
    · unfold convertColor
      rcases hf : findRgba s with - | m
      · have hsome := hexToRgb_isSome_of_grammar s hhex
        rcases hh : hexToRgb s with - | p
        · rw [hh] at hsome
          cases hsome
        · rfl
      · rfl
    · have hsome := findRgba_isSome_of_grammar s hrgb
      unfold convertColor
      rcases hf : findRgba s with - | m
      · rw [hf] at hsome
        cases hsome
      · rfl
  · unfold convertColor
    rcases hf : findRgba s with - | m <;> rcases hh : hexToRgb s with - | p <;>
      simp [hf, hh]

/-- Claim C1 counterexample: `"#ggg"` matches neither the hex grammar (its
digits are not hex digits) nor the rgb grammar, yet `convertColor` returns a
record rather than null. -/
theorem convertColor_accepts_ungrammatical :
    (convertColor (str "#ggg")).isSome = true ∧
    ¬ IsHexGrammar (str "#ggg") ∧ ¬ IsRgbGrammar (str "#ggg") := by
  refine ⟨by decide, by decide, ?_⟩
  rintro ⟨atag, d1, w1, d2, w2, d3, opt, -, -, -, -, -, -, -, -, -, heq⟩
  rw [show str "#ggg" = ['#', 'g', 'g', 'g'] from rfl,
    show str "rgb" = ['r', 'g', 'b'] from rfl] at heq
  simp at heq

/-- Claim C1 witness: a concrete string of the rgb grammar parses to a
record. -/
theorem convertColor_null_characterization_witness :
    (convertColor (str "rgb(1, 2, 3)")).isSome = true :=
  (convertColor_null_characterization (str "rgb(1, 2, 3)")).1
    (Or.inr ⟨false, str "1", [' '], str "2", [' '], str "3", none, by decide, by decide,
      by decide, by decide, by decide, by decide, by decide, by decide, trivial, by decide⟩)

/-! Helper lemmas for the colorimetric pipeline over the reals. -/

theorem jsCbrt_of_nonneg {t : ℝ} (h : 0 ≤ t) : jsCbrt t = t ^ ((1 : ℝ) / 3) := by
  unfold jsCbrt
  rw [if_neg (not_lt.mpr h)]

theorem rpow_third_le {x B : ℝ} (hx : 0 ≤ x) (hB : 0 ≤ B) (h : x ≤ B ^ (3 : ℕ)) :
    x ^ ((1 : ℝ) / 3) ≤ B := by
  have h2 : x ^ ((1 : ℝ) / 3) ≤ (B ^ (3 : ℕ)) ^ ((1 : ℝ) / 3) :=
    Real.rpow_le_rpow hx h (by norm_num)
  calc x ^ ((1 : ℝ) / 3) ≤ (B ^ (3 : ℕ)) ^ ((1 : ℝ) / 3) := h2
    _ = B := by
      rw [← Real.rpow_natCast B 3, ← Real.rpow_mul hB]
      norm_num

theorem le_rpow_third {x B : ℝ} (hB : 0 ≤ B) (h : B ^ (3 : ℕ) ≤ x) :
    B ≤ x ^ ((1 : ℝ) / 3) := by
  have hx : 0 ≤ x := le_trans (by positivity) h
  have h2 : (B ^ (3 : ℕ)) ^ ((1 : ℝ) / 3) ≤ x ^ ((1 : ℝ) / 3) :=
    Real.rpow_le_rpow (by positivity) h (by norm_num)
  calc B = (B ^ (3 : ℕ)) ^ ((1 : ℝ) / 3) := by
        rw [← Real.rpow_natCast B 3, ← Real.rpow_mul hB]
        norm_num
    _ ≤ x ^ ((1 : ℝ) / 3) := h2

theorem rpow24_le {b X : ℝ} (hb : 0 ≤ b) (hX : 0 < X) (h : b ^ (12 : ℕ) ≤ X ^ (5 : ℕ)) :
    b ^ (2.4 : ℝ) ≤ X := by
  have h5 : (b ^ (2.4 : ℝ)) ^ (5 : ℕ) = b ^ (12 : ℕ) := by
    rw [← Real.rpow_natCast (b ^ (2.4 : ℝ)) 5, ← Real.rpow_mul hb,
      show (2.4 : ℝ) * ((5 : ℕ) : ℝ) = ((12 : ℕ) : ℝ) by norm_num, Real.rpow_natCast]
  exact le_of_pow_le_pow_left₀ (by norm_num) hX.le (h5 ▸ h)

theorem lt_rpow24 {b X : ℝ} (hb : 0 ≤ b) (hX : 0 ≤ X) (h : X ^ (5 : ℕ) < b ^ (12 : ℕ)) :
    X < b ^ (2.4 : ℝ) := by
  have h5 : (b ^ (2.4 : ℝ)) ^ (5 : ℕ) = b ^ (12 : ℕ) := by
    rw [← Real.rpow_natCast (b ^ (2.4 : ℝ)) 5, ← Real.rpow_mul hb,
      show (2.4 : ℝ) * ((5 : ℕ) : ℝ) = ((12 : ℕ) : ℝ) by norm_num, Real.rpow_natCast]
  exact lt_of_pow_lt_pow_left₀ 5 (by positivity) (h5 ▸ h : X ^ (5 : ℕ) < (b ^ (2.4 : ℝ)) ^ (5 : ℕ))

theorem srgbToLinear_mem {v : ℝ} (h0 : 0 ≤ v) (h1 : v ≤ 255) :
    0 ≤ srgbToLinear v ∧ srgbToLinear v ≤ 1 := by
  unfold srgbToLinear
  dsimp only
  split_ifs with hc
  · constructor
    · positivity
    · ring_nf
      nlinarith
  · push_neg at hc
    have hb0 : (0 : ℝ) ≤ (v / 255 + 0.055) / 1.055 := by positivity
    constructor
    · exact Real.rpow_nonneg hb0 _
    · refine Real.rpow_le_one hb0 ?_ (by norm_num)
      ring_nf
      nlinarith

theorem srgbToLinear_small {v : ℝ} (h0 : 0 ≤ v) (h23 : v ≤ 23) :
    1.0000001 * srgbToLinear v ≤ 0.008856 := by
  unfold srgbToLinear
  dsimp only
  split_ifs with hc
  · ring_nf
    nlinarith
  · push_neg at hc
    have hb0 : (0 : ℝ) ≤ (v / 255 + 0.055) / 1.055 := by positivity
    have hble : (v / 255 + 0.055) / 1.055 ≤ (23 / 255 + 0.055) / 1.055 := by
      ring_nf
      nlinarith
    have hstep : ((v / 255 + 0.055) / 1.055 : ℝ) ^ (2.4 : ℝ) ≤ 0.0088559 := by
      refine rpow24_le hb0 (by norm_num) ?_
      calc ((v / 255 + 0.055) / 1.055 : ℝ) ^ (12 : ℕ) ≤
          ((23 / 255 + 0.055) / 1.055 : ℝ) ^ (12 : ℕ) := by
            exact pow_le_pow_left₀ hb0 hble 12
        _ ≤ (0.0088559 : ℝ) ^ (5 : ℕ) := by norm_num
    nlinarith [Real.rpow_nonneg hb0 (2.4 : ℝ)]

theorem srgbToLinear_large {v : ℝ} (h24 : 24 ≤ v) (h255 : v ≤ 255) :
    0.008856 < srgbToLinear v := by
  unfold srgbToLinear
  dsimp only
  rw [if_neg (by push_neg; ring_nf; nlinarith)]
  have hb0 : (0 : ℝ) ≤ (24 / 255 + 0.055) / 1.055 := by positivity
  have hble : ((24 / 255 + 0.055) / 1.055 : ℝ) ≤ (v / 255 + 0.055) / 1.055 := by
    ring_nf
    nlinarith
  have hstep : (0.008856 : ℝ) < ((24 / 255 + 0.055) / 1.055 : ℝ) ^ (2.4 : ℝ) := by
    refine lt_rpow24 hb0 (by norm_num) ?_
    calc (0.008856 : ℝ) ^ (5 : ℕ) < ((24 / 255 + 0.055) / 1.055 : ℝ) ^ (12 : ℕ) := by norm_num
      _ = ((24 / 255 + 0.055) / 1.055 : ℝ) ^ (12 : ℕ) := rfl
  calc (0.008856 : ℝ) < ((24 / 255 + 0.055) / 1.055 : ℝ) ^ (2.4 : ℝ) := hstep
    _ ≤ ((v / 255 + 0.055) / 1.055 : ℝ) ^ (2.4 : ℝ) :=
        Real.rpow_le_rpow hb0 hble (by norm_num)

theorem labF_diff_small {t : ℝ} (h0 : 0 ≤ t) (hk : 1.0000001 * t ≤ 0.008856) :
    0 ≤ labF (1.0000001 * t) - labF t ∧
      labF (1.0000001 * t) - labF t ≤ 0.0000000069 := by
  have ht : t ≤ 0.008856 := by nlinarith
  have hkt : ¬(1.0000001 * t > 0.008856) := not_lt.mpr hk
  have htt : ¬(t > 0.008856) := not_lt.mpr ht
  unfold labF
  rw [if_neg hkt, if_neg htt]
  constructor
  · nlinarith
  · nlinarith

theorem labF_diff_large {t : ℝ} (h0 : 0.008856 < t) (h1 : t ≤ 1) :
    0 ≤ labF (1.0000001 * t) - labF t ∧
      labF (1.0000001 * t) - labF t ≤ 0.000000034 := by
  have ht0 : (0 : ℝ) ≤ t := by linarith
  have hkt : (0.008856 : ℝ) < 1.0000001 * t := by nlinarith
  unfold labF
  rw [if_pos h0, if_pos hkt, jsCbrt_of_nonneg ht0, jsCbrt_of_nonneg (by positivity)]
  rw [Real.mul_rpow (by norm_num) ht0]
  have hu0 : (0 : ℝ) ≤ t ^ ((1 : ℝ) / 3) := Real.rpow_nonneg ht0 _
  have hu1 : t ^ ((1 : ℝ) / 3) ≤ 1 := Real.rpow_le_one ht0 h1 (by norm_num)
  have hw1 : (1 : ℝ) ≤ (1.0000001 : ℝ) ^ ((1 : ℝ) / 3) := by
    have := le_rpow_third (x := (1.0000001 : ℝ)) (B := 1) (by norm_num) (by norm_num)
    simpa using this
  have hw2 : (1.0000001 : ℝ) ^ ((1 : ℝ) / 3) ≤ 1.000000034 := by
    refine rpow_third_le (by norm_num) (by norm_num) ?_
    norm_num
  constructor
  · nlinarith
  · nlinarith

theorem grey_xyz_lab (t : ℝ) :
    (xyzToLab (linearRgbToXyz t t t).x (linearRgbToXyz t t t).y
        (linearRgbToXyz t t t).z).a =
      500 * (labF t - labF (1.0000001 * t)) ∧
    (xyzToLab (linearRgbToXyz t t t).x (linearRgbToXyz t t t).y
        (linearRgbToXyz t t t).z).b =
      200 * (labF (1.0000001 * t) - labF t) := by
  unfold linearRgbToXyz xyzToLab
  dsimp only
  have e1 : (0.4124564 * t + 0.3575761 * t + 0.1804375 * t) / 0.95047 = t := by
    field_simp
    ring
  have e2 : (0.2126729 * t + 0.7151522 * t + 0.0721750 * t) / 1.00000 = 1.0000001 * t := by
    norm_num
    ring
  have e3 : (0.0193339 * t + 0.1191920 * t + 0.9503041 * t) / 1.08883 = t := by
    field_simp
    ring
  rw [e1, e2, e3]
  exact ⟨rfl, rfl⟩

theorem grey_lch_chroma (t : ℝ) :
    (labToLch (xyzToLab (linearRgbToXyz t t t).x (linearRgbToXyz t t t).y
        (linearRgbToXyz t t t).z).l
      (xyzToLab (linearRgbToXyz t t t).x (linearRgbToXyz t t t).y
        (linearRgbToXyz t t t).z).a
      (xyzToLab (linearRgbToXyz t t t).x (linearRgbToXyz t t t).y
        (linearRgbToXyz t t t).z).b).c =
      Real.sqrt (290000 * (labF (1.0000001 * t) - labF t) ^ 2) := by
  obtain ⟨ha, hb⟩ := grey_xyz_lab t
  unfold labToLch
  dsimp only
  rw [ha, hb]
  congr 1
  ring

theorem sqrt_sq_bound {d B : ℝ} (hd : 0 ≤ d) (hB : 0 ≤ B) (h : d ≤ B) :
    Real.sqrt (290000 * d ^ 2) ≤ 539 * B := by
  have h1 : 290000 * d ^ 2 ≤ (539 * B) ^ 2 := by nlinarith
  calc Real.sqrt (290000 * d ^ 2) ≤ Real.sqrt ((539 * B) ^ 2) := Real.sqrt_le_sqrt h1
    _ = 539 * B := Real.sqrt_sq (by positivity)

theorem grey_oklch_chroma_bound {t : ℝ} (h0 : 0 ≤ t) (h1 : t ≤ 1) :
    |(oklabToOklch (linearRgbToOklab t t t).L (linearRgbToOklab t t t).a
      (linearRgbToOklab t t t).b).c| ≤ 0.000001 := by
  unfold linearRgbToOklab oklabToOklch
  dsimp only
  have e1 : (0.4122214708 * t + 0.5363325363 * t + 0.0514459929 * t : ℝ) = t := by ring
  have e2 : (0.2119034982 * t + 0.6806995451 * t + 0.1073969566 * t : ℝ) =
      0.9999999999 * t := by ring
  have e3 : (0.0883024619 * t + 0.2817188376 * t + 0.6299787005 * t : ℝ) = t := by ring
  rw [e1, e2, e3, jsCbrt_of_nonneg h0, jsCbrt_of_nonneg (by positivity),
    Real.mul_rpow (by norm_num) h0]
  have hu0 : (0 : ℝ) ≤ t ^ ((1 : ℝ) / 3) := Real.rpow_nonneg h0 _
  have hu1 : t ^ ((1 : ℝ) / 3) ≤ 1 := Real.rpow_le_one h0 h1 (by norm_num)
  have hw1 : (0.9999999999 : ℝ) ^ ((1 : ℝ) / 3) ≤ 1 :=
    Real.rpow_le_one (by norm_num) (by norm_num) (by norm_num)
  have hw2 : (0.9999999999 : ℝ) ≤ (0.9999999999 : ℝ) ^ ((1 : ℝ) / 3) :=
    le_rpow_third (by norm_num) (by norm_num)
  set u := t ^ ((1 : ℝ) / 3) with hu
  set w := (0.9999999999 : ℝ) ^ ((1 : ℝ) / 3) with hw
  have ha : (1.9779984951 * u - 2.4285922050 * (w * u) + 0.4505937099 * u : ℝ) =
      2.4285922050 * (u * (1 - w)) := by ring
  have hb : (0.0259040371 * u + 0.7827717662 * (w * u) - 0.8086757660 * u : ℝ) =
      u * (0.7827717662 * w - 0.7827717289) := by ring
  rw [ha, hb]
  have ha0 : (0 : ℝ) ≤ 2.4285922050 * (u * (1 - w)) := by nlinarith
  have ha1 : (2.4285922050 * (u * (1 - w)) : ℝ) ≤ 0.00000000025 := by nlinarith
  have hb0 : (0 : ℝ) ≤ u * (0.7827717662 * w - 0.7827717289) := by nlinarith
  have hb1 : (u * (0.7827717662 * w - 0.7827717289) : ℝ) ≤ 0.0000000373 := by nlinarith
  rw [abs_of_nonneg (Real.sqrt_nonneg _)]
  have hsum : (2.4285922050 * (u * (1 - w))) * (2.4285922050 * (u * (1 - w))) +
      (u * (0.7827717662 * w - 0.7827717289)) * (u * (0.7827717662 * w - 0.7827717289)) ≤
      (0.000001 : ℝ) ^ 2 := by nlinarith
  calc Real.sqrt ((2.4285922050 * (u * (1 - w))) * (2.4285922050 * (u * (1 - w))) +
        (u * (0.7827717662 * w - 0.7827717289)) * (u * (0.7827717662 * w - 0.7827717289))) ≤
      Real.sqrt ((0.000001 : ℝ) ^ 2) := Real.sqrt_le_sqrt hsum
    _ = 0.000001 := Real.sqrt_sq (by norm_num)

/-- Claim C2 counterexample: at the grey level `r = g = b = 255` the LCH
chroma is not within `1e-6` of zero (it is about `1.8e-5`: the middle row
of the XYZ matrix sums to `1.0000001`, not `1`). -/
theorem grey_white_lch_chroma_exceeds :
    0.000001 < |(rgbToLch 255 255 255).c| := by
  have ht : srgbToLinear 255 = 1 := by
    unfold srgbToLinear
    dsimp only
    rw [if_neg (by norm_num), show ((255 : ℝ) / 255 + 0.055) / 1.055 = 1 by norm_num]
    exact Real.one_rpow _
  unfold rgbToLch
  dsimp only
  rw [ht, grey_lch_chroma 1, abs_of_nonneg (Real.sqrt_nonneg _)]
  have hf1 : labF 1 = 1 := by
    unfold labF
    rw [if_pos (by norm_num), jsCbrt_of_nonneg (by norm_num), Real.one_rpow]
  have hf2 : (1.000000032 : ℝ) ≤ labF (1.0000001 * 1) := by
    unfold labF
    rw [if_pos (by norm_num), jsCbrt_of_nonneg (by norm_num)]
    exact le_rpow_third (by norm_num) (by norm_num)
  have hd : (0.000000032 : ℝ) ≤ labF (1.0000001 * 1) - labF 1 := by
    rw [hf1]
    linarith
  have hlow : (0.000016 : ℝ) ≤
      Real.sqrt (290000 * (labF (1.0000001 * 1) - labF 1) ^ 2) := by
    have h500 : (0.000016 : ℝ) = Real.sqrt ((0.000016 : ℝ) ^ 2) :=
      (Real.sqrt_sq (by norm_num)).symm
    rw [h500]
    refine Real.sqrt_le_sqrt ?_
    nlinarith
  linarith

/-- Claim C2 (amended): for every grey input `r = g = b = v` with `v` an
integer in `[0, 255]`, the OKLCH chroma is within `1e-6` of zero as claimed,
and the LCH chroma is within `1e-4` of zero (at white it reaches about
`1.8e-5`, because the Y row of the XYZ matrix sums to `1.0000001`, so the
claimed `1e-6` fails for LCH and `1e-4` is the sharp-to-one-decade bound). -/
theorem grey_chroma_bounds (v : ℕ) (hv : v ≤ 255) :
    |(rgbToLch (v : ℝ) (v : ℝ) (v : ℝ)).c| ≤ 0.0001 ∧
    |(rgbToOklch (v : ℝ) (v : ℝ) (v : ℝ)).c| ≤ 0.000001 := by
  have h0 : (0 : ℝ) ≤ (v : ℝ) := Nat.cast_nonneg v
  have h255 : (v : ℝ) ≤ 255 := by exact_mod_cast hv
  obtain ⟨ht0, ht1⟩ := srgbToLinear_mem h0 h255
  constructor
  · unfold rgbToLch
    dsimp only
    rw [grey_lch_chroma (srgbToLinear (v : ℝ)), abs_of_nonneg (Real.sqrt_nonneg _)]
    by_cases hcase : v ≤ 23
    · have hsm := srgbToLinear_small h0 (by exact_mod_cast hcase : (v : ℝ) ≤ 23)
      obtain ⟨hd0, hd1⟩ := labF_diff_small ht0 hsm
      calc Real.sqrt (290000 *
            (labF (1.0000001 * srgbToLinear (v : ℝ)) - labF (srgbToLinear (v : ℝ))) ^ 2) ≤
          539 * 0.0000000069 := sqrt_sq_bound hd0 (by norm_num) hd1
        _ ≤ 0.0001 := by norm_num
    · push_neg at hcase
      have h24 : (24 : ℝ) ≤ (v : ℝ) := by exact_mod_cast hcase
      obtain ⟨hd0, hd1⟩ := labF_diff_large (srgbToLinear_large h24 h255) ht1
      calc Real.sqrt (290000 *
            (labF (1.0000001 * srgbToLinear (v : ℝ)) - labF (srgbToLinear (v : ℝ))) ^ 2) ≤
          539 * 0.000000034 := sqrt_sq_bound hd0 (by norm_num) hd1
        _ ≤ 0.0001 := by norm_num
  · unfold rgbToOklch
    dsimp only
    exact grey_oklch_chroma_bound ht0 ht1

/-- Claim C2 witness: the amended bounds at the concrete grey level 128. -/
theorem grey_chroma_bounds_witness :
    |(rgbToLch ((128 : ℕ) : ℝ) ((128 : ℕ) : ℝ) ((128 : ℕ) : ℝ)).c| ≤ 0.0001 ∧
    |(rgbToOklch ((128 : ℕ) : ℝ) ((128 : ℕ) : ℝ) ((128 : ℕ) : ℝ)).c| ≤ 0.000001 :=
  grey_chroma_bounds 128 (by decide)

theorem hue_norm_mem_Ico (y x : ℝ) :
    (if jsAtan2 y x * (180 / Real.pi) < 0 then jsAtan2 y x * (180 / Real.pi) + 360
     else jsAtan2 y x * (180 / Real.pi)) ∈ Set.Ico (0 : ℝ) 360 := by
  have hπ : (0 : ℝ) < Real.pi := Real.pi_pos
  have hb1 : jsAtan2 y x ≤ Real.pi := by
    unfold jsAtan2
    exact Complex.arg_le_pi _
  have hb2 : -Real.pi < jsAtan2 y x := by
    unfold jsAtan2
    exact Complex.neg_pi_lt_arg _
  have hd : (0 : ℝ) < 180 / Real.pi := by positivity
  have h1 : jsAtan2 y x * (180 / Real.pi) ≤ 180 := by
    have h := mul_le_mul_of_nonneg_right hb1 hd.le
    rw [show Real.pi * (180 / Real.pi) = 180 from by field_simp] at h
    exact h
  have h2 : -180 < jsAtan2 y x * (180 / Real.pi) := by
    have h := mul_lt_mul_of_pos_right hb2 hd
    rw [show -Real.pi * (180 / Real.pi) = -180 from by field_simp; ring] at h
    exact h
  rw [Set.mem_Ico]
  split_ifs with h
  · exact ⟨by linarith, by linarith⟩
  · exact ⟨le_of_not_lt h, by linarith⟩

/-- Claim C4: the source LCH pipeline `rgbToLch` is exactly the composition
the spec describes (channel normalisation, piecewise sRGB decode, the fixed
D65 matrix, the Lab transfer against white `(0.95047, 1.0, 1.08883)`, and the
polar transform), and the resulting hue is normalised into `[0, 360)`. -/
theorem rgbToLch_matches_spec_pipeline (r g b : ℝ) :
    rgbToLch r g b = specRgbToLch r g b ∧
    (rgbToLch r g b).h ∈ Set.Ico (0 : ℝ) 360 := by
  constructor
  · unfold rgbToLch specRgbToLch srgbToLinear linearRgbToXyz xyzToLab labToLch labF
    dsimp only
    rw [show (1.00000 : ℝ) = 1.0 from by norm_num]
    simp only [Lch.mk.injEq]
    refine ⟨trivial, ?_, trivial⟩
    congr 1
    ring
  · unfold rgbToLch labToLch
    dsimp only
    exact hue_norm_mem_Ico _ _

end Dembrandt
